import Mathlib

/-!
A shallow embedding of the GFA → GBWT ingest pipeline of `src/gfa.cpp`
(`gbwtgraph` namespace): the memory-mapped tokenizer, the single-pass
preprocessor (`GFAFile` constructor and its `add_*_line` helpers), the
rescan iterators (`for_each_segment`, …, `for_each_walk`), the segment
translator, the metadata parser and the path/walk encoder
(`parse_segments`, `parse_metadata`, `parse_paths`, `gfa_to_gbwt`).

The mapped file is a `List Char`; pointers into the mapped region become
`Nat` offsets; `size_t` / `uint64_t` arithmetic that can overflow is taken
modulo `2 ^ 64` where the source can wrap.  `std::cerr` diagnostics become
values of the `Diag` type accumulated in the `GFAFile` state.  Loops are
fueled structural recursions; every top-level entry point passes fuel
`file.length + 1`, which is shown (or assumed via validity hypotheses)
to be sufficient.
-/

/-- `2 ^ 64 - 1`, the largest `unsigned long` / `size_t` value on the
64-bit platforms the source targets. -/
def USIZE_MAX : Nat := 2 ^ 64 - 1

/-- Character at offset `i` of the mapped file (`'\x00'` past the end;
the source never dereferences past the end on the paths we model). -/
def charAt (file : List Char) (i : Nat) : Char := file.getD i (Char.ofNat 0)

/-- The half-open byte range `[a, b)` of the mapped file. -/
def strRange (file : List Char) (a b : Nat) : List Char := (file.drop a).take (b - a)

/-- Number of characters scanned before the predicate holds (length of the
scanned prefix). -/
def scanCount (pred : Char → Bool) : List Char → Nat
  | [] => 0
  | c :: cs => if pred c then 0 else scanCount pred cs + 1

/-- `while(limit != end && !(pred(*limit))) ++limit;` starting at offset `i`:
the first offset `≥ i` whose character satisfies `pred`, or the end of the
file. -/
def scanTo (pred : Char → Bool) (file : List Char) (i : Nat) : Nat :=
  i + scanCount pred (file.drop i)

/-- Membership in the `field_end` bit mask: the mask is initialized in the
`GFAFile` constructor to contain exactly `'\n'` and `'\t'`. -/
def is_field_end (c : Char) : Bool := c == '\n' || c == '\t'

/-- Membership in the `subfield_end` bit mask: `'\n'`, `'\t'` and `','`. -/
def is_subfield_end (c : Char) : Bool := c == '\n' || c == '\t' || c == ','

/-- Membership in the `walk_subfield_end` bit mask: `'\n'`, `'\t'`, `'<'`
and `'>'`. -/
def is_walk_subfield_end (c : Char) : Bool := c == '\n' || c == '\t' || c == '<' || c == '>'

/-- `GFAFile::field_type`: a half-open range `[begin_, end_)` into the
mapped file, with the line number, record-type byte and has-next flag. -/
structure field_type where
  begin_ : Nat
  end_ : Nat
  line_num : Nat
  type : Char
  has_next : Bool
deriving DecidableEq, Repr

def field_type.size (f : field_type) : Nat := f.end_ - f.begin_

def field_type.empty (f : field_type) : Bool := f.size == 0

/-- `field_type::str()` (and `view()`): the characters of the field. -/
def fieldStr (file : List Char) (f : field_type) : List Char := strRange file f.begin_ f.end_

def fieldFront (file : List Char) (f : field_type) : Char := charAt file f.begin_

def fieldBack (file : List Char) (f : field_type) : Char := charAt file (f.end_ - 1)

/-- `field_type::valid_orientation()`. -/
def valid_orientation (file : List Char) (f : field_type) : Bool :=
  f.size == 1 && (fieldBack file f == '-' || fieldBack file f == '+')

/-- `field_type::is_reverse_orientation()`. -/
def is_reverse_orientation (file : List Char) (f : field_type) : Bool := fieldBack file f == '-'

/-- `field_type::valid_path_segment()`. -/
def valid_path_segment (file : List Char) (f : field_type) : Bool :=
  decide (2 ≤ f.size) && (fieldBack file f == '-' || fieldBack file f == '+')

/-- `field_type::path_segment()`: the field without the trailing orientation. -/
def path_segment (file : List Char) (f : field_type) : List Char := strRange file f.begin_ (f.end_ - 1)

/-- `field_type::is_reverse_path_segment()`. -/
def is_reverse_path_segment (file : List Char) (f : field_type) : Bool := fieldBack file f == '-'

/-- `field_type::start_walk()`: increment `end` so that the first
`next_walk_subfield` call starts at the first walk character. -/
def start_walk (f : field_type) : field_type := { f with end_ := f.end_ + 1 }

/-- `field_type::valid_walk_segment()`. -/
def valid_walk_segment (file : List Char) (f : field_type) : Bool :=
  decide (2 ≤ f.size) && (fieldFront file f == '<' || fieldFront file f == '>')

/-- `field_type::walk_segment()`: the field without the leading orientation. -/
def walk_segment (file : List Char) (f : field_type) : List Char := strRange file (f.begin_ + 1) f.end_

/-- `field_type::is_reverse_walk_segment()`. -/
def is_reverse_walk_segment (file : List Char) (f : field_type) : Bool := fieldFront file f == '<'

/-- `GFAFile::first_field`: the first tab-separated field of the line. -/
def first_field (file : List Char) (line_start : Nat) (line_num : Nat) : field_type :=
  let limit := scanTo is_field_end file line_start
  { begin_ := line_start, end_ := limit, line_num := line_num,
    type := charAt file line_start,
    has_next := decide (limit < file.length) && (charAt file limit == '\t') }

/-- `GFAFile::next_field`: the next tab-separated field, assuming there is
one. -/
def next_field (file : List Char) (f : field_type) : field_type :=
  let limit := scanTo is_field_end file (f.end_ + 1)
  { begin_ := f.end_ + 1, end_ := limit, line_num := f.line_num, type := f.type,
    has_next := decide (limit < file.length) && (charAt file limit == '\t') }

/-- `GFAFile::next_subfield`: the next comma-separated subfield; has-next
only when the terminator is `','`. -/
def next_subfield (file : List Char) (f : field_type) : field_type :=
  let limit := scanTo is_subfield_end file (f.end_ + 1)
  { begin_ := f.end_ + 1, end_ := limit, line_num := f.line_num, type := f.type,
    has_next := decide (limit < file.length) && (charAt file limit == ',') }

/-- Does this character open a walk subfield (`'<'` or `'>'`)? -/
def is_walk_start (c : Char) : Bool := c == '<' || c == '>'

/-- `GFAFile::next_walk_subfield`: the orientation symbol at the start of
the segment doubles as the subfield separator, so the next token begins at
`end` rather than `end + 1`. -/
def next_walk_subfield (file : List Char) (f : field_type) : field_type :=
  let limit :=
    if decide (f.end_ < file.length) && is_walk_start (charAt file f.end_) then
      scanTo is_walk_subfield_end file (f.end_ + 1)
    else f.end_
  { begin_ := f.end_, end_ := limit, line_num := f.line_num, type := f.type,
    has_next := decide (limit < file.length) && is_walk_start (charAt file limit) }

/-- `GFAFile::next_line`: the offset of the beginning of the next line. -/
def next_line (file : List Char) (i : Nat) : Nat :=
  let j := scanTo (fun c => c == '\n') file i
  if j < file.length then j + 1 else j

/-- One `std::cerr` diagnostic line written by the preprocessor. -/
inductive Diag where
  | noField (type : Char) (line_num : Nat) (field_name : String)
  | endedAfter (type : Char) (line_num : Nat) (field_name : String)
  | invalidSourceOrientation (line_num : Nat)
  | invalidDestinationOrientation (line_num : Nat)
  | invalidPathSegment (line_num : Nat)
  | emptyPath (line_num : Nat)
  | invalidWalkSegment (line_num : Nat)
  | emptyWalk (line_num : Nat)
deriving DecidableEq, Repr

/-- The `GFAFile` object: preprocessing statistics, the four per-kind
vectors of line-start offsets, the validity flag and the diagnostics
written so far.  The file descriptor and the mapped pointer are not
modeled; an `OPEN` failure corresponds to `ok = false`. -/
structure GFAFile where
  file_size : Nat
  valid_gfa : Bool
  translate_segment_ids : Bool
  max_segment_length : Nat
  max_path_length : Nat
  s_lines : List Nat
  l_lines : List Nat
  p_lines : List Nat
  w_lines : List Nat
  diagnostics : List Diag
deriving DecidableEq, Repr

/-- `GFAFile::ok()`. -/
def GFAFile.ok (g : GFAFile) : Bool := decide (0 < g.file_size) && g.valid_gfa

/-- The freshly constructed `GFAFile` state, before the validation pass. -/
def GFAFile.init (file : List Char) : GFAFile :=
  { file_size := file.length, valid_gfa := true, translate_segment_ids := false,
    max_segment_length := 0, max_path_length := 0,
    s_lines := [], l_lines := [], p_lines := [], w_lines := [], diagnostics := [] }

/-- `GFAFile::check_field`: a failed check marks the file invalid and
records the diagnostic. -/
def check_field (gfa : GFAFile) (f : field_type) (field_name : String) (should_have_next : Bool) :
    Bool × GFAFile :=
  if f.empty then
    (false, { gfa with valid_gfa := false,
                       diagnostics := gfa.diagnostics ++ [.noField f.type f.line_num field_name] })
  else if should_have_next && !f.has_next then
    (false, { gfa with valid_gfa := false,
                       diagnostics := gfa.diagnostics ++ [.endedAfter f.type f.line_num field_name] })
  else (true, gfa)

/-- Result of `std::stoul(name)` with base 10. -/
inductive StoulResult where
  | invalid
  | outOfRange
  | ok (v : Nat)
deriving DecidableEq, Repr

/-- C locale `isspace`. -/
def isSpaceChar (c : Char) : Bool :=
  c == ' ' || c == '\t' || c == '\n' || c == '\x0b' || c == '\x0c' || c == '\r'

/-- Value of a run of decimal digits. -/
def digitsVal (s : List Char) : Nat := s.foldl (fun a c => 10 * a + (c.toNat - 48)) 0

/-- `std::stoul(str, nullptr, 10)`: skip leading whitespace, accept one
optional sign, then parse the longest run of decimal digits.  No digits:
`std::invalid_argument`.  A magnitude above `ULONG_MAX`:
`std::out_of_range`.  A `'-'` sign negates in `unsigned long` arithmetic. -/
def stoulChars (s : List Char) : StoulResult :=
  let s1 := s.dropWhile isSpaceChar
  let neg : Bool := match s1 with
    | '-' :: _ => true
    | _ => false
  let s2 : List Char := match s1 with
    | '-' :: rest => rest
    | '+' :: rest => rest
    | _ => s1
  let digits := s2.takeWhile Char.isDigit
  if digits.isEmpty then .invalid
  else
    let v := digitsVal digits
    if USIZE_MAX < v then .outOfRange
    else .ok (if neg then (USIZE_MAX + 1 - v) % (USIZE_MAX + 1) else v)

/-- Result of one `add_*_line` call: continue at the next line, return
`nullptr` with the state marked invalid, or propagate an uncaught
exception out of the constructor. -/
inductive LineResult where
  | next (iter : Nat) (gfa : GFAFile)
  | fail (gfa : GFAFile)
  | crash
deriving DecidableEq, Repr

/-- Result of the validating do-while loop over path / walk subfields. -/
inductive SubLoopResult where
  | done (count : Nat) (field : field_type)
  | bad (field : field_type)
  | out
deriving DecidableEq, Repr

/-- The `do { field = next_subfield(field); … } while(field.has_next)` loop
of `GFAFile::add_p_line`, with fuel. -/
def pSegLoop (file : List Char) : field_type → Nat → Nat → SubLoopResult
  | _, _, 0 => .out
  | f, count, fuel + 1 =>
    let f := next_subfield file f
    if valid_path_segment file f then
      if f.has_next then pSegLoop file f (count + 1) fuel else .done (count + 1) f
    else .bad f

/-- The `do { field = next_walk_subfield(field); … } while(field.has_next)`
loop of `GFAFile::add_w_line`, with fuel. -/
def wSegLoop (file : List Char) : field_type → Nat → Nat → SubLoopResult
  | _, _, 0 => .out
  | f, count, fuel + 1 =>
    let f := next_walk_subfield file f
    if valid_walk_segment file f then
      if f.has_next then wSegLoop file f (count + 1) fuel else .done (count + 1) f
    else .bad f

/-- Tail of `GFAFile::add_s_line` after the segment-name handling: the
sequence field and the segment-length statistic. -/
def s_line_tail (file : List Char) (gfa : GFAFile) (f : field_type) : LineResult :=
  let f := next_field file f
  match check_field gfa f "sequence" false with
  | (false, gfa) => .fail gfa
  | (true, gfa) =>
      .next (next_line file f.end_)
        { gfa with max_segment_length := max gfa.max_segment_length f.size }

/-- `GFAFile::add_s_line`. -/
def add_s_line (file : List Char) (gfa : GFAFile) (iter line_num : Nat) : LineResult :=
  let gfa := { gfa with s_lines := gfa.s_lines ++ [iter] }
  let f := first_field file iter line_num
  match check_field gfa f "record type" true with
  | (false, gfa) => .fail gfa
  | (true, gfa) =>
  let f := next_field file f
  match check_field gfa f "segment name" true with
  | (false, gfa) => .fail gfa
  | (true, gfa) =>
    if gfa.translate_segment_ids then s_line_tail file gfa f
    else
      match stoulChars (fieldStr file f) with
      | .invalid => s_line_tail file { gfa with translate_segment_ids := true } f
      | .outOfRange => .crash
      | .ok v =>
          if v == 0 then s_line_tail file { gfa with translate_segment_ids := true } f
          else s_line_tail file gfa f

/-- `GFAFile::add_l_line`. -/
def add_l_line (file : List Char) (gfa : GFAFile) (iter line_num : Nat) : LineResult :=
  let gfa := { gfa with l_lines := gfa.l_lines ++ [iter] }
  let f := first_field file iter line_num
  match check_field gfa f "record type" true with
  | (false, gfa) => .fail gfa
  | (true, gfa) =>
  let f := next_field file f
  match check_field gfa f "source segment" true with
  | (false, gfa) => .fail gfa
  | (true, gfa) =>
  let f := next_field file f
  match check_field gfa f "source orientation" true with
  | (false, gfa) => .fail gfa
  | (true, gfa) =>
  if !valid_orientation file f then
    .fail { gfa with valid_gfa := false,
                     diagnostics := gfa.diagnostics ++ [.invalidSourceOrientation line_num] }
  else
  let f := next_field file f
  match check_field gfa f "destination segment" true with
  | (false, gfa) => .fail gfa
  | (true, gfa) =>
  let f := next_field file f
  match check_field gfa f "destination orientation" false with
  | (false, gfa) => .fail gfa
  | (true, gfa) =>
  if !valid_orientation file f then
    .fail { gfa with valid_gfa := false,
                     diagnostics := gfa.diagnostics ++ [.invalidDestinationOrientation line_num] }
  else .next (next_line file f.end_) gfa

/-- `GFAFile::add_p_line`. -/
def add_p_line (file : List Char) (gfa : GFAFile) (iter line_num : Nat) : LineResult :=
  let gfa := { gfa with p_lines := gfa.p_lines ++ [iter] }
  let f := first_field file iter line_num
  match check_field gfa f "record type" true with
  | (false, gfa) => .fail gfa
  | (true, gfa) =>
  let f := next_field file f
  match check_field gfa f "path name" true with
  | (false, gfa) => .fail gfa
  | (true, gfa) =>
  match pSegLoop file f 0 (file.length + 1) with
  | .out => .fail { gfa with valid_gfa := false }
  | .bad _ =>
      .fail { gfa with valid_gfa := false,
                       diagnostics := gfa.diagnostics ++ [.invalidPathSegment line_num] }
  | .done path_length f =>
      if path_length == 0 then
        .fail { gfa with valid_gfa := false,
                         diagnostics := gfa.diagnostics ++ [.emptyPath line_num] }
      else
        .next (next_line file f.end_)
          { gfa with max_path_length := max gfa.max_path_length path_length }

/-- `GFAFile::add_w_line`. -/
def add_w_line (file : List Char) (gfa : GFAFile) (iter line_num : Nat) : LineResult :=
  let gfa := { gfa with w_lines := gfa.w_lines ++ [iter] }
  let f := first_field file iter line_num
  match check_field gfa f "record type" true with
  | (false, gfa) => .fail gfa
  | (true, gfa) =>
  let f := next_field file f
  match check_field gfa f "sample name" true with
  | (false, gfa) => .fail gfa
  | (true, gfa) =>
  let f := next_field file f
  match check_field gfa f "haplotype index" true with
  | (false, gfa) => .fail gfa
  | (true, gfa) =>
  let f := next_field file f
  match check_field gfa f "contig name" true with
  | (false, gfa) => .fail gfa
  | (true, gfa) =>
  let f := next_field file f
  match check_field gfa f "start position" true with
  | (false, gfa) => .fail gfa
  | (true, gfa) =>
  let f := next_field file f
  match check_field gfa f "end position" true with
  | (false, gfa) => .fail gfa
  | (true, gfa) =>
  match wSegLoop file (start_walk f) 0 (file.length + 1) with
  | .out => .fail { gfa with valid_gfa := false }
  | .bad _ =>
      .fail { gfa with valid_gfa := false,
                       diagnostics := gfa.diagnostics ++ [.invalidWalkSegment line_num] }
  | .done path_length f =>
      if path_length == 0 then
        .fail { gfa with valid_gfa := false,
                         diagnostics := gfa.diagnostics ++ [.emptyWalk line_num] }
      else
        .next (next_line file f.end_)
          { gfa with max_path_length := max gfa.max_path_length path_length }

/-- The preprocessing loop of the `GFAFile` constructor: classify each line
by its first byte and validate it.  `none` models an uncaught exception
(or exhausted fuel, which the provided fuel makes unreachable). -/
def preprocessLoop (file : List Char) : GFAFile → Nat → Nat → Nat → Option GFAFile
  | _, _, _, 0 => none
  | gfa, iter, line_num, fuel + 1 =>
    if iter < file.length then
      let c := charAt file iter
      let step : LineResult :=
        if c == 'S' then add_s_line file gfa iter line_num
        else if c == 'L' then add_l_line file gfa iter line_num
        else if c == 'P' then add_p_line file gfa iter line_num
        else if c == 'W' then add_w_line file gfa iter line_num
        else .next (next_line file iter) gfa
      match step with
      | .crash => none
      | .fail gfa => some gfa
      | .next iter gfa => preprocessLoop file gfa iter (line_num + 1) fuel
    else some gfa

/-- The `GFAFile` constructor: memory-map the file and run the validation
pass over it. -/
def GFAFile.preprocess (file : List Char) : Option GFAFile :=
  preprocessLoop file (GFAFile.init file) 0 0 (file.length + 1)

/-- Loop body of `GFAFile::for_each_segment` over the stored S-line
offsets.  Callbacks are state transformers returning the `bool` whose
`false` stops the iteration. -/
def forEachSegmentLoop {σ : Type} (file : List Char)
    (segment : σ → List Char → List Char → σ × Bool) : List Nat → σ → σ
  | [], s => s
  | iter :: rest, s =>
    let f := first_field file iter 0
    let f := next_field file f
    let name := fieldStr file f
    let f := next_field file f
    let sequence := fieldStr file f
    match segment s name sequence with
    | (s, false) => s
    | (s, true) => forEachSegmentLoop file segment rest s

/-- `GFAFile::for_each_segment`. -/
def for_each_segment {σ : Type} (file : List Char) (gfa : GFAFile)
    (segment : σ → List Char → List Char → σ × Bool) (s : σ) : σ :=
  if !gfa.ok then s else forEachSegmentLoop file segment gfa.s_lines s

/-- Loop body of `GFAFile::for_each_link` over the stored L-line offsets. -/
def forEachLinkLoop {σ : Type} (file : List Char)
    (link : σ → List Char → Bool → List Char → Bool → σ × Bool) : List Nat → σ → σ
  | [], s => s
  | iter :: rest, s =>
    let f := first_field file iter 0
    let f := next_field file f
    let from_ := fieldStr file f
    let f := next_field file f
    let from_is_reverse := is_reverse_orientation file f
    let f := next_field file f
    let to_ := fieldStr file f
    let f := next_field file f
    let to_is_reverse := is_reverse_orientation file f
    match link s from_ from_is_reverse to_ to_is_reverse with
    | (s, false) => s
    | (s, true) => forEachLinkLoop file link rest s

/-- `GFAFile::for_each_link`. -/
def for_each_link {σ : Type} (file : List Char) (gfa : GFAFile)
    (link : σ → List Char → Bool → List Char → Bool → σ × Bool) (s : σ) : σ :=
  if !gfa.ok then s else forEachLinkLoop file link gfa.l_lines s

/-- Loop body of `GFAFile::for_each_path_name` over the stored P-line
offsets. -/
def forEachPathNameLoop {σ : Type} (file : List Char)
    (path : σ → List Char → σ × Bool) : List Nat → σ → σ
  | [], s => s
  | iter :: rest, s =>
    let f := first_field file iter 0
    let f := next_field file f
    match path s (fieldStr file f) with
    | (s, false) => s
    | (s, true) => forEachPathNameLoop file path rest s

/-- `GFAFile::for_each_path_name`. -/
def for_each_path_name {σ : Type} (file : List Char) (gfa : GFAFile)
    (path : σ → List Char → σ × Bool) (s : σ) : σ :=
  if !gfa.ok then s else forEachPathNameLoop file path gfa.p_lines s

/-- The inner `do … while(field.has_next)` subfield loop of
`GFAFile::for_each_path`, with fuel.  The returned `Bool` is `false` when
a callback requested an early stop (or, as a modeling artifact, when the
fuel ran out, which cannot happen with the fuel the callers pass). -/
def forEachPathSegs {σ : Type} (file : List Char)
    (path_segment_cb : σ → List Char → Bool → σ × Bool) : field_type → σ → Nat → σ × Bool
  | _, s, 0 => (s, false)
  | f, s, fuel + 1 =>
    let f := next_subfield file f
    match path_segment_cb s (path_segment file f) (is_reverse_path_segment file f) with
    | (s, false) => (s, false)
    | (s, true) =>
        if f.has_next then forEachPathSegs file path_segment_cb f s fuel else (s, true)

/-- Loop body of `GFAFile::for_each_path` over the stored P-line offsets. -/
def forEachPathLoop {σ : Type} (file : List Char)
    (path : σ → List Char → σ × Bool)
    (path_segment_cb : σ → List Char → Bool → σ × Bool)
    (finish_path : σ → σ × Bool) : List Nat → σ → σ
  | [], s => s
  | iter :: rest, s =>
    let f := first_field file iter 0
    let f := next_field file f
    match path s (fieldStr file f) with
    | (s, false) => s
    | (s, true) =>
      match forEachPathSegs file path_segment_cb f s (file.length + 1) with
      | (s, false) => s
      | (s, true) =>
        match finish_path s with
        | (s, false) => s
        | (s, true) => forEachPathLoop file path path_segment_cb finish_path rest s

/-- `GFAFile::for_each_path`. -/
def for_each_path {σ : Type} (file : List Char) (gfa : GFAFile)
    (path : σ → List Char → σ × Bool)
    (path_segment_cb : σ → List Char → Bool → σ × Bool)
    (finish_path : σ → σ × Bool) (s : σ) : σ :=
  if !gfa.ok then s else forEachPathLoop file path path_segment_cb finish_path gfa.p_lines s

/-- Loop body of `GFAFile::for_each_walk_name` over the stored W-line
offsets. -/
def forEachWalkNameLoop {σ : Type} (file : List Char)
    (walk : σ → List Char → List Char → List Char → List Char → σ × Bool) : List Nat → σ → σ
  | [], s => s
  | iter :: rest, s =>
    let f := first_field file iter 0
    let f := next_field file f
    let sample := fieldStr file f
    let f := next_field file f
    let haplotype := fieldStr file f
    let f := next_field file f
    let contig := fieldStr file f
    let f := next_field file f
    let start := fieldStr file f
    match walk s sample haplotype contig start with
    | (s, false) => s
    | (s, true) => forEachWalkNameLoop file walk rest s

/-- `GFAFile::for_each_walk_name`. -/
def for_each_walk_name {σ : Type} (file : List Char) (gfa : GFAFile)
    (walk : σ → List Char → List Char → List Char → List Char → σ × Bool) (s : σ) : σ :=
  if !gfa.ok then s else forEachWalkNameLoop file walk gfa.w_lines s

/-- The inner `do … while(field.has_next)` walk-subfield loop of
`GFAFile::for_each_walk`, with fuel. -/
def forEachWalkSegs {σ : Type} (file : List Char)
    (walk_segment_cb : σ → List Char → Bool → σ × Bool) : field_type → σ → Nat → σ × Bool
  | _, s, 0 => (s, false)
  | f, s, fuel + 1 =>
    let f := next_walk_subfield file f
    match walk_segment_cb s (walk_segment file f) (is_reverse_walk_segment file f) with
    | (s, false) => (s, false)
    | (s, true) =>
        if f.has_next then forEachWalkSegs file walk_segment_cb f s fuel else (s, true)

/-- Loop body of `GFAFile::for_each_walk` over the stored W-line offsets. -/
def forEachWalkLoop {σ : Type} (file : List Char)
    (walk : σ → List Char → List Char → List Char → List Char → σ × Bool)
    (walk_segment_cb : σ → List Char → Bool → σ × Bool)
    (finish_walk : σ → σ × Bool) : List Nat → σ → σ
  | [], s => s
  | iter :: rest, s =>
    let f := first_field file iter 0
    let f := next_field file f
    let sample := fieldStr file f
    let f := next_field file f
    let haplotype := fieldStr file f
    let f := next_field file f
    let contig := fieldStr file f
    let f := next_field file f
    let start := fieldStr file f
    match walk s sample haplotype contig start with
    | (s, false) => s
    | (s, true) =>
      let f := next_field file f
      match forEachWalkSegs file walk_segment_cb (start_walk f) s (file.length + 1) with
      | (s, false) => s
      | (s, true) =>
        match finish_walk s with
        | (s, false) => s
        | (s, true) => forEachWalkLoop file walk walk_segment_cb finish_walk rest s

/-- `GFAFile::for_each_walk`. -/
def for_each_walk {σ : Type} (file : List Char) (gfa : GFAFile)
    (walk : σ → List Char → List Char → List Char → List Char → σ × Bool)
    (walk_segment_cb : σ → List Char → Bool → σ × Bool)
    (finish_walk : σ → σ × Bool) (s : σ) : σ :=
  if !gfa.ok then s else forEachWalkLoop file walk walk_segment_cb finish_walk gfa.w_lines s

/-- The second tab-separated field of the line starting at `off`: the
segment name of an S-line, or the path name of a P-line. -/
def secondFieldStrAt (file : List Char) (off : Nat) : List Char :=
  fieldStr file (next_field file (first_field file off 0))

/-- Does the segment name on the S-line at `off` force id translation?
(`std::stoul` finds no integer prefix, or the parsed value is zero; an
`out_of_range` overflow crashes the preprocessor instead, so it cannot
occur in a successfully preprocessed file whose translation flag is
still unset.) -/
def forcesTranslation (file : List Char) (off : Nat) : Bool :=
  match stoulChars (secondFieldStrAt file off) with
  | .invalid => true
  | .outOfRange => false
  | .ok v => v == 0

/-- Pure extraction of the `(segment, orientation)` subfields of a P-line,
driven by the end offset `e` of the previous field exactly as
`next_subfield` is; `none` when the fuel runs out before the subfield list
terminates. -/
def pathSegsFromPos (file : List Char) : Nat → Nat → Option (List (List Char × Bool))
  | _, 0 => none
  | e, fuel + 1 =>
    let b := e + 1
    let e2 := scanTo is_subfield_end file b
    let hn := decide (e2 < file.length) && (charAt file e2 == ',')
    let seg := (strRange file b (e2 - 1), charAt file (e2 - 1) == '-')
    if hn then (pathSegsFromPos file e2 fuel).map (seg :: ·) else some [seg]

/-- The parsed subfields of the P-line at offset `off` (none if the fuel
bound is hit, which cannot happen on preprocessed lines). -/
def pathSegsAt (file : List Char) (off : Nat) : Option (List (List Char × Bool)) :=
  pathSegsFromPos file (next_field file (first_field file off 0)).end_ (file.length + 1)

/-- Pure extraction of the `(segment, orientation)` walk subfields of a
W-line, driven by the end offset `e` of the previous token exactly as
`next_walk_subfield` is. -/
def walkSegsFromPos (file : List Char) : Nat → Nat → Option (List (List Char × Bool))
  | _, 0 => none
  | e, fuel + 1 =>
    let e2 :=
      if decide (e < file.length) && is_walk_start (charAt file e) then
        scanTo is_walk_subfield_end file (e + 1)
      else e
    let hn := decide (e2 < file.length) && is_walk_start (charAt file e2)
    let seg := (strRange file (e + 1) e2, charAt file e == '<')
    if hn then (walkSegsFromPos file e2 fuel).map (seg :: ·) else some [seg]

/-- The parsed walk subfields of the W-line at offset `off`: the walk list
starts right after the end-position field (the sixth tab-separated
field). -/
def walkSegsAt (file : List Char) (off : Nat) : Option (List (List Char × Bool)) :=
  let f := first_field file off 0
  let f := next_field file f
  let f := next_field file f
  let f := next_field file f
  let f := next_field file f
  let f := next_field file f
  walkSegsFromPos file (f.end_ + 1) (file.length + 1)

/-- The `(sample, haplotype, contig, start)` header fields of the W-line
at offset `off`, as yielded by `for_each_walk_name`. -/
def walkHeaderAt (file : List Char) (off : Nat) :
    List Char × List Char × List Char × List Char :=
  let f := first_field file off 0
  let f1 := next_field file f
  let f2 := next_field file f1
  let f3 := next_field file f2
  let f4 := next_field file f3
  (fieldStr file f1, fieldStr file f2, fieldStr file f3, fieldStr file f4)

/-- `stoulNoCheck`: parse a nonnegative integer assuming the string is
valid, in wrapping `uint64_t` arithmetic. -/
def stoulNoCheck (s : List Char) : Nat :=
  s.foldl (fun r c => (10 * r + c.toNat + (2 ^ 64 - 48)) % 2 ^ 64) 0

/-- Modelled from the spec: the succinct index builder's node-encoding
scheme — an oriented node `(id, is_reverse)` is encoded as the integer
`2 * id + is_reverse` (`gbwt::Node::encode`, an external collaborator). -/
def Node.encode (id : Nat) (is_reverse : Bool) : Nat :=
  2 * id + (if is_reverse then 1 else 0)

/-- Modelled from the spec: the sequence store built by the segment
translator (`SequenceSource`, declared outside this translation unit).
It stores sequences keyed by node identifier, the translation table from
opaque segment names to half-open node ranges, and the next free node
identifier (node `0` is reserved). -/
structure SequenceSource where
  nodes : List (Nat × List Char)
  segment_translation : List (List Char × (Nat × Nat))
  next_id : Nat
deriving DecidableEq, Repr

/-- Modelled from the spec: a fresh sequence store; node ids start at 1. -/
def SequenceSource.init : SequenceSource :=
  { nodes := [], segment_translation := [], next_id := 1 }

/-- Modelled from the spec: direct-mode insertion of one node. -/
def SequenceSource.add_node (src : SequenceSource) (id : Nat) (sequence : List Char) :
    SequenceSource :=
  { src with nodes := src.nodes ++ [(id, sequence)] }

/-- Modelled from the spec: `SequenceSource::translate_segment` assigns the
next `ceil(len / max_length)` node identifiers to the segment, stores each
chunk under its node identifier, and records the range in the translation
table. -/
def SequenceSource.translate_segment (src : SequenceSource) (name : List Char)
    (sequence : List Char) (max_length : Nat) : (Nat × Nat) × SequenceSource :=
  let first := src.next_id
  let count := (sequence.length + max_length - 1) / max_length
  let limit := first + count
  ((first, limit),
   { nodes := src.nodes ++
       (List.range count).map (fun i => (first + i, (sequence.drop (i * max_length)).take max_length)),
     segment_translation := src.segment_translation ++ [(name, (first, limit))],
     next_id := limit })

/-- Modelled from the spec: `SequenceSource::uses_translation` — true once
any segment went through the translation table. -/
def SequenceSource.uses_translation (src : SequenceSource) : Bool :=
  !src.segment_translation.isEmpty

/-- Modelled from the spec and the call site in `parse_paths`:
`SequenceSource::get_translation` returns the stored node range of the
name, and the sentinel `(0, 0)` when the name has no entry. -/
def SequenceSource.get_translation (src : SequenceSource) (name : List Char) : Nat × Nat :=
  match src.segment_translation.find? (fun p => p.1 == name) with
  | some p => p.2
  | none => (0, 0)

/-- Modelled from the spec: the topology-free graph that receives
`create_node` calls (`EmptyGraph`, an external collaborator). -/
structure EmptyGraph where
  nodes : List Nat
deriving DecidableEq, Repr

def EmptyGraph.create_node (g : EmptyGraph) (id : Nat) : EmptyGraph :=
  { nodes := g.nodes ++ [id] }

/-- `GFAParsingParameters` (regex configuration is handled by the external
metadata builder and is not part of this record). -/
structure GFAParsingParameters where
  max_node_length : Nat
  batch_size : Nat
  sample_interval : Nat
  node_width : Nat
  automatic_batch_size : Bool
  show_progress : Bool
deriving DecidableEq, Repr

/-- Modelled from the spec: parameter defaults (the header with the
defaults is outside this translation unit; only `max_node_length = 0`,
meaning unbounded, matters to the claims evaluated with it). -/
def defaultParameters : GFAParsingParameters :=
  { max_node_length := 0, batch_size := 0, sample_interval := 1024,
    node_width := 64, automatic_batch_size := true, show_progress := false }

/-- Modelled from the spec: `gbwt::DynamicGBWT::MIN_SEQUENCES_PER_BATCH`,
a constant of the external builder (its numeric value does not affect any
claim). -/
def MIN_SEQUENCES_PER_BATCH : Nat := 100

/-- One metadata registration recorded by the external metadata builder. -/
inductive MetadataEvent where
  | refPath (name : List Char)
  | walkRecord (sample haplotype contig start : List Char)
  | parsed (name : List Char)
deriving DecidableEq, Repr

/-- Modelled from the spec: the external `MetadataBuilder`.  Whether each
registration succeeds is an oracle (`add_reference_path` and `parse`
depend on the configured path-name regex, `add_walk` on integer
conversion of the structured fields); successful registrations are
recorded in order. -/
structure MetadataBuilder where
  refPathOk : List Char → Bool
  walkOk : List Char → List Char → List Char → List Char → Bool
  parseOk : List Char → Bool
  events : List MetadataEvent

/-- Modelled from the spec: `MetadataBuilder::add_reference_path` registers
the path name under the reserved reference sample name. -/
def MetadataBuilder.add_reference_path (m : MetadataBuilder) (name : List Char) :
    MetadataBuilder × Bool :=
  if m.refPathOk name then
    ({ m with events := m.events ++ [.refPath name] }, true)
  else (m, false)

/-- Modelled from the spec: `MetadataBuilder::add_walk` records the
structured walk fields. -/
def MetadataBuilder.add_walk (m : MetadataBuilder)
    (sample haplotype contig start : List Char) : MetadataBuilder × Bool :=
  if m.walkOk sample haplotype contig start then
    ({ m with events := m.events ++ [.walkRecord sample haplotype contig start] }, true)
  else (m, false)

/-- Modelled from the spec: `MetadataBuilder::parse` applies the configured
path-name regex to the name. -/
def MetadataBuilder.parse (m : MetadataBuilder) (name : List Char) :
    MetadataBuilder × Bool :=
  if m.parseOk name then
    ({ m with events := m.events ++ [.parsed name] }, true)
  else (m, false)

/-- Modelled from the spec: a metadata builder configured with the default
regex `.*` and default field assignment, under which every registration
succeeds. -/
def allTrueMetadata : MetadataBuilder :=
  { refPathOk := fun _ => true, walkOk := fun _ _ _ _ => true,
    parseOk := fun _ => true, events := [] }

/-- Modelled from the spec: the succinct index builder handle
(`gbwt::GBWTBuilder`).  `insert` buffers one encoded path; `finish`
finalizes the index. -/
structure GBWTBuilder where
  node_width : Nat
  batch_size : Nat
  sample_interval : Nat
  metadata_events : List MetadataEvent
  inserted : List (List Nat)
  finished : Bool

/-- Modelled from the spec: `gbwt::GBWTBuilder::insert(nodes, both_strands)`. -/
def GBWTBuilder.insert (b : GBWTBuilder) (nodes : List Nat) (_both_orientations : Bool) :
    GBWTBuilder :=
  { b with inserted := b.inserted ++ [nodes] }

/-- Modelled from the spec: `gbwt::GBWTBuilder::finish()`. -/
def GBWTBuilder.finish (b : GBWTBuilder) : GBWTBuilder :=
  { b with finished := true }

/-- `check_gfa_file`: segments but no paths or walks, or no segments at
all, is a CONTENT error (the middle branch of the source only prints a
progress message). -/
def check_gfa_file (gfa : GFAFile) (_parameters : GFAParsingParameters) : Bool :=
  if !gfa.ok then false
  else if gfa.s_lines.length == 0 then false
  else if gfa.p_lines.length == 0 && gfa.w_lines.length == 0 then false
  else true

/-- `determine_batch_size`. -/
def determine_batch_size (gfa : GFAFile) (parameters : GFAParsingParameters) : Nat :=
  let batch_size := parameters.batch_size
  if parameters.automatic_batch_size then
    let min_size := MIN_SEQUENCES_PER_BATCH * (gfa.max_path_length + 1)
    let batch_size := max min_size batch_size
    min gfa.file_size batch_size
  else batch_size

/-- `parse_segments`: decide whether translation is needed and feed every
segment to the sequence store and the topology-free graph. -/
def parse_segments (file : List Char) (gfa : GFAFile) (parameters : GFAParsingParameters) :
    SequenceSource × EmptyGraph :=
  let max_node_length := if parameters.max_node_length == 0 then USIZE_MAX
                         else parameters.max_node_length
  let translate :=
    if max_node_length < gfa.max_segment_length then true
    else gfa.translate_segment_ids
  for_each_segment file gfa
    (fun (r : SequenceSource × EmptyGraph) name sequence =>
      if translate then
        let (range, src) := r.1.translate_segment name sequence max_node_length
        ((src, { nodes := r.2.nodes ++ (List.range (range.2 - range.1)).map (range.1 + ·) }), true)
      else
        let id := stoulNoCheck name
        ((r.1.add_node id sequence, r.2.create_node id), true))
    (SequenceSource.init, { nodes := [] })

/-- `parse_metadata`: walks present → reference paths from P-line names
plus structured walk records; walks absent → regex parsing of P-line
names.  Returns `none` when the source returns `false`. -/
def parse_metadata (file : List Char) (gfa : GFAFile) (metadata : MetadataBuilder) :
    Option MetadataBuilder :=
  if 0 < gfa.w_lines.length then
    let s : MetadataBuilder × Bool :=
      if 0 < gfa.p_lines.length then
        for_each_path_name file gfa
          (fun (s : MetadataBuilder × Bool) name =>
            match s.1.add_reference_path name with
            | (m, true) => ((m, s.2), true)
            | (m, false) => ((m, true), false))
          (metadata, false)
      else (metadata, false)
    if s.2 then none
    else
      let s := for_each_walk_name file gfa
        (fun (s : MetadataBuilder × Bool) sample haplotype contig start =>
          match s.1.add_walk sample haplotype contig start with
          | (m, true) => ((m, s.2), true)
          | (m, false) => ((m, true), false))
        s
      if s.2 then none else some s.1
  else if 0 < gfa.p_lines.length then
    let s := for_each_path_name file gfa
      (fun (s : MetadataBuilder × Bool) name =>
        match s.1.parse name with
        | (m, true) => ((m, s.2), true)
        | (m, false) => ((m, true), false))
      (metadata, false)
    if s.2 then none else some s.1
  else some metadata

/-- The forward emission loop of `add_segment` in `parse_paths`:
`for(nid_t id = first; id < limit; id++) push_back(encode(id, rev))`,
unrolled on the iteration count. -/
def pushForwardAux (is_reverse : Bool) : Nat → List Nat → Nat → List Nat
  | _, acc, 0 => acc
  | id, acc, n + 1 => pushForwardAux is_reverse (id + 1) (acc ++ [Node.encode id is_reverse]) n

/-- Forward emission over the node range `[first, limit)`. -/
def pushForward (first limit : Nat) (is_reverse : Bool) (acc : List Nat) : List Nat :=
  pushForwardAux is_reverse first acc (limit - first)

/-- The reverse emission loop of `add_segment` in `parse_paths`:
`for(nid_t id = limit; id > first; id--) push_back(encode(id - 1, rev))`,
unrolled on the iteration count. -/
def pushReverseAux (is_reverse : Bool) : Nat → List Nat → Nat → List Nat
  | _, acc, 0 => acc
  | id, acc, n + 1 => pushReverseAux is_reverse (id - 1) (acc ++ [Node.encode (id - 1) is_reverse]) n

/-- Reverse emission over the node range `[first, limit)`. -/
def pushReverse (first limit : Nat) (is_reverse : Bool) (acc : List Nat) : List Nat :=
  pushReverseAux is_reverse limit acc (limit - first)

/-- The `add_segment` lambda of `parse_paths`: expand one referenced
segment into encoded node positions appended to `current_path`; the
returned `Bool` is `false` exactly when translation is in use and the
name has no translation entry. -/
def add_segment (source : SequenceSource) (current_path : List Nat)
    (name : List Char) (is_reverse : Bool) : List Nat × Bool :=
  if source.uses_translation then
    let range := source.get_translation name
    if range.1 == 0 && range.2 == 0 then (current_path, false)
    else if is_reverse then (pushReverse range.1 range.2 is_reverse current_path, true)
    else (pushForward range.1 range.2 is_reverse current_path, true)
  else (current_path ++ [Node.encode (stoulNoCheck name) is_reverse], true)

/-- `parse_paths`: encode every path and walk, flushing one insertion per
finished path or walk, then finalize the builder. -/
def parse_paths (file : List Char) (gfa : GFAFile) (source : SequenceSource)
    (builder : GBWTBuilder) : GBWTBuilder :=
  let s : List Nat × GBWTBuilder := ([], builder)
  let s := for_each_path file gfa
    (fun s _ => (s, true))
    (fun (s : List Nat × GBWTBuilder) name is_reverse =>
      let r := add_segment source s.1 name is_reverse
      ((r.1, s.2), r.2))
    (fun s => (([], s.2.insert s.1 true), true))
    s
  let s := for_each_walk file gfa
    (fun s _ _ _ _ => (s, true))
    (fun (s : List Nat × GBWTBuilder) name is_reverse =>
      let r := add_segment source s.1 name is_reverse
      ((r.1, s.2), r.2))
    (fun s => (([], s.2.insert s.1 true), true))
    s
  s.2.finish

/-- `gfa_to_gbwt`: the whole ingest pipeline.  `none` is the null result
pair (or a crash of the preprocessor, which also yields no result). -/
def gfa_to_gbwt (file : List Char) (parameters : GFAParsingParameters)
    (metadata : MetadataBuilder) : Option (GBWTBuilder × SequenceSource) :=
  match GFAFile.preprocess file with
  | none => none
  | some gfa_file =>
    if !check_gfa_file gfa_file parameters then none
    else
      let batch_size := determine_batch_size gfa_file parameters
      let sg := parse_segments file gfa_file parameters
      match parse_metadata file gfa_file metadata with
      | none => none
      | some md =>
        let builder : GBWTBuilder :=
          { node_width := parameters.node_width, batch_size := batch_size,
            sample_interval := parameters.sample_interval,
            metadata_events := md.events, inserted := [], finished := false }
        let builder := parse_paths file gfa_file sg.1 builder
        some (builder, sg.1)

/-- The result of a preprocessing pass, defaulting to the initial state
(used only to name concrete preprocessed values in witnesses). -/
def preprocessedOf (file : List Char) : GFAFile :=
  (GFAFile.preprocess file).getD (GFAFile.init file)

/-- The state carried by a failed `add_*_line` call (used only to name
concrete failure states in witnesses). -/
def failGfaOf (file : List Char) : LineResult → GFAFile
  | .fail g => g
  | .next _ g => g
  | .crash => GFAFile.init file

/-- A GFA file whose only W-line has the end position as its last field
(no walk list). -/
def gfaWNoWalkList : List Char := "W\ts\t1\tc\t0\t3\n".toList

/-- A GFA file whose only P-line has an empty segment-names field. -/
def gfaEmptyPathFile : List Char := "P\tp\t\t*\n".toList

/-- A GFA file whose only segment name, `1x`, has the integer prefix `1`
under `std::stoul` but is not a non-negative integer numeral. -/
def gfaMixedNameFile : List Char := "S\t1x\tA\n".toList

/-- A structurally valid translated-mode GFA file whose path references
the undeclared segment `missing`. -/
def gfaMissingRefFile : List Char := "S\tchr1\tA\nP\tp\tmissing+\t*\n".toList

/-- A structurally valid translated-mode GFA file with three P-lines whose
middle path references the undeclared segment `missing`. -/
def gfaDanglingFile : List Char :=
  "S\tchr1\tA\nP\ta\tchr1+\t*\nP\tb\tmissing+\t*\nP\tc\tchr1+\t*\n".toList

/-- A valid direct-mode GFA file with two segments and one path. -/
def gfaDirectFile : List Char := "S\t1\tA\nS\t2\tG\nP\tx\t1+,2+\t*\n".toList

/-- A valid GFA file with a segment but neither paths nor walks. -/
def gfaSegOnlyFile : List Char := "S\t1\tA\n".toList

/-- A valid GFA file containing both a P-line and a W-line. -/
def gfaWalksFile : List Char :=
  "S\t1\tACC\nP\tGRCh38#chr1\t1+\t*\nW\tHG002\t1\tchr1\t0\t3\t>1\n".toList

/-- Two valid S-lines, the first of which has the segment name `0`. -/
def gfaZeroNameFile : List Char := "S\t0\tA\nS\t2\tAC\n".toList

/-- Claim C4's own reading of "parses as a non-negative integer": the
whole name is a non-empty run of decimal digits. -/
def parses_as_nonneg_integer (s : List Char) : Bool := !s.isEmpty && s.all Char.isDigit

/-- C1: the claim says a path referencing a segment with no translation
entry makes the whole ingest fail with a REFERENCE error and no index.
The code instead stops the path iteration silently (`add_segment` returns
`false`, `for_each_path` just ends), still finalizes the builder and
returns a non-null index: on `gfaMissingRefFile` the file preprocesses as
valid, `missing` has no translation entry (`(0, 0)` sentinel), and
`gfa_to_gbwt` returns a finalized result with the truncated path never
flushed. -/
theorem c1_missing_reference_still_returns_index :
    (GFAFile.preprocess gfaMissingRefFile).map GFAFile.ok = some true
    ∧ ((parse_segments gfaMissingRefFile (preprocessedOf gfaMissingRefFile)
          defaultParameters).1.get_translation "missing".toList) = (0, 0)
    ∧ (gfa_to_gbwt gfaMissingRefFile defaultParameters allTrueMetadata).map
        (fun r => (r.1.finished, r.1.inserted.length)) = some (true, 0) := by
  refine ⟨by decide, by decide, ?_⟩
  decide

/-- C2 counterexample: the claim says a W-line whose end field is the last
field on the line is accepted; on `gfaWNoWalkList` the preprocessor
rejects the file with an "ended after end position" diagnostic. -/
theorem c2_w_line_without_walk_list_rejected :
    (GFAFile.preprocess gfaWNoWalkList).map (fun g => (g.valid_gfa, g.diagnostics)) =
      some (false, [Diag.endedAfter 'W' 0 "end position"]) := by decide

/-- C3 counterexample: the claim says ingest of `P\tp\t\t*\n` aborts with
an EMPTY COLLECTION (empty-path) diagnostic; the code aborts with the
SHAPE diagnostic `invalidPathSegment` instead, and no empty-path
diagnostic is emitted. -/
theorem c3_empty_p_line_not_empty_collection :
    (GFAFile.preprocess gfaEmptyPathFile).map (fun g => (g.valid_gfa, g.diagnostics)) =
      some (false, [Diag.invalidPathSegment 0]) := by decide

/-- C4 counterexample: the claim says the translation flag is set whenever
some segment name fails to parse as a non-negative integer; the segment
name `1x` is not a non-negative integer numeral, yet the file preprocesses
successfully with the flag still false (`std::stoul` accepts the prefix
`1`). -/
theorem c4_prefix_parse_leaves_flag_unset :
    (GFAFile.preprocess gfaMixedNameFile).map
        (fun g => (g.valid_gfa, g.translate_segment_ids, g.s_lines.map (secondFieldStrAt gfaMixedNameFile))) =
      some (true, false, [['1', 'x']])
    ∧ parses_as_nonneg_integer ['1', 'x'] = false := by
  exact ⟨by decide, by decide⟩

/-- C6 counterexample: the claim says every valid input file produces one
insertion per P-line and W-line; `gfaDanglingFile` is valid with three
P-lines and no W-line, but its dangling reference stops the path scan
early, so only one path is inserted. -/
theorem c6_dangling_reference_loses_insertions :
    (GFAFile.preprocess gfaDanglingFile).map
        (fun g => (g.ok, g.p_lines.length + g.w_lines.length)) = some (true, 3)
    ∧ (gfa_to_gbwt gfaDanglingFile defaultParameters allTrueMetadata).map
        (fun r => r.1.inserted.length) = some 1 := by
  exact ⟨by decide, by decide⟩

lemma pushForwardAux_eq (rev : Bool) :
    ∀ (n first : Nat) (acc : List Nat),
      pushForwardAux rev first acc n =
        acc ++ (List.range n).map (fun i => Node.encode (first + i) rev) := by
  intro n
  induction n with
  | zero => intro first acc; simp [pushForwardAux]
  | succ n ih =>
    intro first acc
    show pushForwardAux rev (first + 1) (acc ++ [Node.encode first rev]) n = _
    rw [ih]
    have hc : (fun i => Node.encode (first + 1 + i) rev) =
        ((fun i => Node.encode (first + i) rev) ∘ Nat.succ) := by
      funext i
      simp only [Function.comp]
      congr 1
      omega
    simp only [List.range_succ_eq_map, List.map_cons, List.map_map, List.append_assoc,
      List.singleton_append, Nat.add_zero, hc]

lemma pushReverseAux_eq (rev : Bool) :
    ∀ (n id : Nat) (acc : List Nat),
      pushReverseAux rev id acc n =
        acc ++ (List.range n).map (fun i => Node.encode (id - 1 - i) rev) := by
  intro n
  induction n with
  | zero => intro id acc; simp [pushReverseAux]
  | succ n ih =>
    intro id acc
    show pushReverseAux rev (id - 1) (acc ++ [Node.encode (id - 1) rev]) n = _
    rw [ih]
    have hc : (fun i => Node.encode (id - 1 - 1 - i) rev) =
        ((fun i => Node.encode (id - 1 - i) rev) ∘ Nat.succ) := by
      funext i
      simp only [Function.comp]
      congr 1
      omega
    simp only [List.range_succ_eq_map, List.map_cons, List.map_map, List.append_assoc,
      List.singleton_append, Nat.sub_zero, hc]

lemma range_reverse_map_encode (rev : Bool) (first limit : Nat) :
    ((List.range (limit - first)).reverse).map (fun i => Node.encode (first + i) rev) =
      (List.range (limit - first)).map (fun i => Node.encode (limit - 1 - i) rev) := by
  rw [List.range_eq_range', List.reverse_range', List.map_map, ← List.range_eq_range']
  refine List.map_congr_left ?_
  intro a ha
  rw [List.mem_range] at ha
  simp only [Function.comp]
  congr 1
  omega

/-- C5: in translated mode, a referenced segment with translation range
`[first, limit)` is emitted forward as
`(first, false), …, (limit - 1, false)` and in reverse as
`(limit - 1, true), …, (first, true)` — i.e. the reverse emission is the
reversed index order of the range, all positions flagged reverse. -/
theorem c5_translated_emission_order :
    ∀ (src : SequenceSource) (name : List Char) (cp : List Nat) (first limit : Nat),
      src.uses_translation = true →
      src.get_translation name = (first, limit) →
      (first == 0 && limit == 0) = false →
      add_segment src cp name false =
        (cp ++ (List.range (limit - first)).map (fun i => Node.encode (first + i) false), true)
      ∧ add_segment src cp name true =
        (cp ++ ((List.range (limit - first)).reverse).map (fun i => Node.encode (first + i) true),
         true) := by
  intro src name cp first limit huse htr hz
  constructor
  · simp only [add_segment, huse, htr, hz, if_true, Bool.false_eq_true, if_false,
      pushForward, pushForwardAux_eq]
  · simp only [add_segment, huse, htr, hz, if_true, Bool.false_eq_true, if_false,
      pushReverse, pushReverseAux_eq, range_reverse_map_encode]

/-- A sequence store whose only translation entry maps `s` to `[1, 4)`
(the allocation of spec scenario 3). -/
def srcOneToFour : SequenceSource :=
  { nodes := [], segment_translation := [(['s'], (1, 4))], next_id := 4 }

/-- Witness for C5 at the concrete range `[1, 4)`: the forward emission is
`[(1,+),(2,+),(3,+)]` (encoded `[2,4,6]`) and the reverse emission is
`[(3,-),(2,-),(1,-)]` (encoded `[7,5,3]`). -/
theorem c5_translated_emission_order_witness :
    add_segment srcOneToFour [] ['s'] false = ([2, 4, 6], true)
    ∧ add_segment srcOneToFour [] ['s'] true = ([7, 5, 3], true) := by
  have h := c5_translated_emission_order srcOneToFour ['s'] [] 1 4
    (by decide) (by decide) (by decide)
  exact ⟨h.1.trans (by decide), h.2.trans (by decide)⟩

/-- C8: the builder's batch size is the user-supplied value when automatic
sizing is off, and otherwise
`min(file size, max(user batch size, MIN_SEQUENCES_PER_BATCH * (max path length + 1)))`. -/
theorem c8_batch_size :
    ∀ (gfa : GFAFile) (parameters : GFAParsingParameters),
      (parameters.automatic_batch_size = false →
        determine_batch_size gfa parameters = parameters.batch_size)
      ∧ (parameters.automatic_batch_size = true →
        determine_batch_size gfa parameters =
          min gfa.file_size
            (max parameters.batch_size (MIN_SEQUENCES_PER_BATCH * (gfa.max_path_length + 1)))) := by
  intro gfa parameters
  constructor
  · intro h
    simp [determine_batch_size, h]
  · intro h
    simp [determine_batch_size, h, Nat.max_comm]

/-- Witness for C8 at a concrete state: with automatic sizing on, file
size `50`, maximum path length `2` and user batch size `120`, the batch
size is `min 50 (max 120 300) = 50`; with it off, it is the user value. -/
theorem c8_batch_size_witness :
    determine_batch_size { GFAFile.init [] with file_size := 50, max_path_length := 2 }
        { defaultParameters with batch_size := 120 } = 50
    ∧ determine_batch_size { GFAFile.init [] with file_size := 50, max_path_length := 2 }
        { defaultParameters with batch_size := 120, automatic_batch_size := false } = 120 := by
  constructor
  · have h := (c8_batch_size { GFAFile.init [] with file_size := 50, max_path_length := 2 }
      { defaultParameters with batch_size := 120 }).2 rfl
    exact h.trans (by decide)
  · exact (c8_batch_size { GFAFile.init [] with file_size := 50, max_path_length := 2 }
      { defaultParameters with batch_size := 120, automatic_batch_size := false }).1 rfl

/-- C9: a file that preprocesses successfully but has no S-lines, or has
S-lines but neither P-lines nor W-lines, fails `check_gfa_file` (the
CONTENT error raised after preprocessing, before segment parsing) and
`gfa_to_gbwt` returns the null result. -/
theorem c9_content_error_null_result :
    ∀ (file : List Char) (parameters : GFAParsingParameters) (metadata : MetadataBuilder)
      (gfa : GFAFile),
      GFAFile.preprocess file = some gfa → gfa.ok = true →
      (gfa.s_lines.length = 0 ∨ (gfa.p_lines.length = 0 ∧ gfa.w_lines.length = 0)) →
      check_gfa_file gfa parameters = false
      ∧ gfa_to_gbwt file parameters metadata = none := by
  intro file parameters metadata gfa hpre hok hcontent
  have hchk : check_gfa_file gfa parameters = false := by
    rcases hcontent with h | ⟨hp, hw⟩
    · simp [check_gfa_file, hok, h]
    · simp [check_gfa_file, hok, hp, hw]
  refine ⟨hchk, ?_⟩
  simp [gfa_to_gbwt, hpre, hchk]

/-- Witness for C9 at `gfaSegOnlyFile` (one segment, no paths or walks). -/
theorem c9_content_error_null_result_witness :
    check_gfa_file (preprocessedOf gfaSegOnlyFile) defaultParameters = false
    ∧ gfa_to_gbwt gfaSegOnlyFile defaultParameters allTrueMetadata = none := by
  exact c9_content_error_null_result gfaSegOnlyFile defaultParameters allTrueMetadata
    (preprocessedOf gfaSegOnlyFile) (by decide) (by decide) (by right; exact ⟨by decide, by decide⟩)

/-- C10: when `ok()` is false (the construction did not fully succeed),
every rescan iterator returns its initial state without invoking any
callback. -/
theorem c10_iterators_noop_when_not_ok :
    ∀ (file : List Char) (gfa : GFAFile), gfa.ok = false →
      (∀ (σ : Type) (cb : σ → List Char → List Char → σ × Bool) (s : σ),
        for_each_segment file gfa cb s = s)
      ∧ (∀ (σ : Type) (cb : σ → List Char → Bool → List Char → Bool → σ × Bool) (s : σ),
        for_each_link file gfa cb s = s)
      ∧ (∀ (σ : Type) (cb : σ → List Char → σ × Bool) (s : σ),
        for_each_path_name file gfa cb s = s)
      ∧ (∀ (σ : Type) (cb₁ : σ → List Char → σ × Bool)
          (cb₂ : σ → List Char → Bool → σ × Bool) (cb₃ : σ → σ × Bool) (s : σ),
        for_each_path file gfa cb₁ cb₂ cb₃ s = s)
      ∧ (∀ (σ : Type) (cb : σ → List Char → List Char → List Char → List Char → σ × Bool) (s : σ),
        for_each_walk_name file gfa cb s = s)
      ∧ (∀ (σ : Type) (cb₁ : σ → List Char → List Char → List Char → List Char → σ × Bool)
          (cb₂ : σ → List Char → Bool → σ × Bool) (cb₃ : σ → σ × Bool) (s : σ),
        for_each_walk file gfa cb₁ cb₂ cb₃ s = s) := by
  intro file gfa h
  refine ⟨?_, ?_, ?_, ?_, ?_, ?_⟩
  · intro σ cb s; simp [for_each_segment, h]
  · intro σ cb s; simp [for_each_link, h]
  · intro σ cb s; simp [for_each_path_name, h]
  · intro σ cb₁ cb₂ cb₃ s; simp [for_each_path, h]
  · intro σ cb s; simp [for_each_walk_name, h]
  · intro σ cb₁ cb₂ cb₃ s; simp [for_each_walk, h]

/-- Witness for C10: the invalid preprocessing state of
`gfaEmptyPathFile` (validation failed, so `ok()` is false) makes each of
the six iterators, instantiated with counting callbacks, return the
initial counter unchanged. -/
theorem c10_iterators_noop_when_not_ok_witness :
    for_each_segment gfaEmptyPathFile (preprocessedOf gfaEmptyPathFile)
        (fun (n : Nat) _ _ => (n + 1, true)) 0 = 0
    ∧ for_each_link gfaEmptyPathFile (preprocessedOf gfaEmptyPathFile)
        (fun (n : Nat) _ _ _ _ => (n + 1, true)) 0 = 0
    ∧ for_each_path_name gfaEmptyPathFile (preprocessedOf gfaEmptyPathFile)
        (fun (n : Nat) _ => (n + 1, true)) 0 = 0
    ∧ for_each_path gfaEmptyPathFile (preprocessedOf gfaEmptyPathFile)
        (fun (n : Nat) _ => (n + 1, true)) (fun n _ _ => (n + 1, true))
        (fun n => (n + 1, true)) 0 = 0
    ∧ for_each_walk_name gfaEmptyPathFile (preprocessedOf gfaEmptyPathFile)
        (fun (n : Nat) _ _ _ _ => (n + 1, true)) 0 = 0
    ∧ for_each_walk gfaEmptyPathFile (preprocessedOf gfaEmptyPathFile)
        (fun (n : Nat) _ _ _ _ => (n + 1, true)) (fun n _ _ => (n + 1, true))
        (fun n => (n + 1, true)) 0 = 0 := by
  have h := c10_iterators_noop_when_not_ok gfaEmptyPathFile
    (preprocessedOf gfaEmptyPathFile) (by decide)
  exact ⟨h.1 Nat _ 0, h.2.1 Nat _ 0, h.2.2.1 Nat _ 0, h.2.2.2.1 Nat _ _ _ 0,
    h.2.2.2.2.1 Nat _ 0, h.2.2.2.2.2 Nat _ _ _ 0⟩

lemma next_field_type (file : List Char) (f : field_type) :
    (next_field file f).type = f.type := rfl

lemma next_field_line_num (file : List Char) (f : field_type) :
    (next_field file f).line_num = f.line_num := rfl

lemma first_field_line_num (file : List Char) (i n : Nat) :
    (first_field file i n).line_num = n := rfl

/-- C2 (amended): a W-line whose end field is the last field on the line
is rejected — the preprocessor requires the end field to be followed by a
further field (the walk list) and otherwise marks the file invalid with
an "ended after end position" diagnostic carrying that line's number. -/
theorem c2_end_field_must_have_next :
    ∀ (file : List Char) (gfa : GFAFile) (iter n : Nat) (f0 f1 f2 f3 f4 f5 : field_type),
      f0 = first_field file iter n →
      f1 = next_field file f0 →
      f2 = next_field file f1 →
      f3 = next_field file f2 →
      f4 = next_field file f3 →
      f5 = next_field file f4 →
      f0.empty = false → f0.has_next = true →
      f1.empty = false → f1.has_next = true →
      f2.empty = false → f2.has_next = true →
      f3.empty = false → f3.has_next = true →
      f4.empty = false → f4.has_next = true →
      f5.empty = false → f5.has_next = false →
      add_w_line file gfa iter n =
        .fail { gfa with w_lines := gfa.w_lines ++ [iter], valid_gfa := false,
                         diagnostics := gfa.diagnostics ++ [.endedAfter f0.type n "end position"] } := by
  intro file gfa iter n f0 f1 f2 f3 f4 f5 e0 e1 e2 e3 e4 e5
  intro h0e h0n h1e h1n h2e h2n h3e h3n h4e h4n h5e h5n
  subst e5 e4 e3 e2 e1 e0
  simp only [add_w_line, check_field, h0e, h0n, h1e, h1n, h2e, h2n, h3e, h3n, h4e, h4n,
    h5e, h5n, Bool.false_eq_true, if_false, Bool.not_true, Bool.and_false, Bool.not_false,
    Bool.and_true, if_true, next_field_type, next_field_line_num, first_field_line_num]

/-- Witness for C2's amended claim at `gfaWNoWalkList`. -/
theorem c2_end_field_must_have_next_witness :
    add_w_line gfaWNoWalkList (GFAFile.init gfaWNoWalkList) 0 0 =
      .fail { GFAFile.init gfaWNoWalkList with
              w_lines := [0], valid_gfa := false,
              diagnostics := [Diag.endedAfter 'W' 0 "end position"] } := by
  have h := c2_end_field_must_have_next gfaWNoWalkList (GFAFile.init gfaWNoWalkList) 0 0
    _ _ _ _ _ _ rfl rfl rfl rfl rfl rfl
    (by decide) (by decide) (by decide) (by decide) (by decide) (by decide)
    (by decide) (by decide) (by decide) (by decide) (by decide) (by decide)
  exact h.trans (by decide)

/-- Is this diagnostic the P-line EMPTY COLLECTION (empty path) one? -/
def isEmptyPathDiag : Diag → Bool
  | .emptyPath _ => true
  | _ => false


lemma pSegLoop_done_pos (file : List Char) :
    ∀ (fuel : Nat) (f : field_type) (c k : Nat) (f' : field_type),
      pSegLoop file f c fuel = .done k f' → c < k := by
  intro fuel
  induction fuel with
  | zero => intro f c k f' h; simp [pSegLoop] at h
  | succ fuel ih =>
    intro f c k f' h
    simp only [pSegLoop] at h
    split at h
    · split at h
      · have := ih _ _ _ _ h
        omega
      · cases h
        omega
    · exact SubLoopResult.noConfusion h

lemma check_field_cases (gfa : GFAFile) (f : field_type) (nm : String) (b : Bool) :
    check_field gfa f nm b = (true, gfa)
    ∨ ∃ d, isEmptyPathDiag d = false
        ∧ check_field gfa f nm b =
            (false, { gfa with valid_gfa := false, diagnostics := gfa.diagnostics ++ [d] }) := by
  unfold check_field
  split
  · right; exact ⟨Diag.noField f.type f.line_num nm, rfl, rfl⟩
  · split
    · right; exact ⟨Diag.endedAfter f.type f.line_num nm, rfl, rfl⟩
    · left; rfl

/-- C3 (amended): on input `P\tp\t\t*\n` ingest aborts on that P-line with
the SHAPE diagnostic "invalid path segment" carrying the P-line's line
number; moreover `add_p_line` can never emit the EMPTY COLLECTION
(empty-path) diagnostic — its zero-segment branch is unreachable — so a
failed `add_p_line` leaves the set of empty-path diagnostics unchanged. -/
theorem c3_empty_p_line_shape_error :
    (∀ (file : List Char) (gfa : GFAFile) (iter n : Nat) (g' : GFAFile),
      add_p_line file gfa iter n = .fail g' →
      g'.diagnostics.filter isEmptyPathDiag = gfa.diagnostics.filter isEmptyPathDiag)
    ∧ (GFAFile.preprocess gfaEmptyPathFile).map (fun g => (g.valid_gfa, g.diagnostics)) =
        some (false, [Diag.invalidPathSegment 0]) := by
  constructor
  · intro file gfa iter n g' h
    unfold add_p_line at h
    rcases check_field_cases { gfa with p_lines := gfa.p_lines ++ [iter] }
        (first_field file iter n) "record type" true with hcf | ⟨d, hd, hcf⟩
    swap
    · simp only [hcf] at h
      cases h
      simp [List.filter_append, hd]
    simp only [hcf] at h
    rcases check_field_cases { gfa with p_lines := gfa.p_lines ++ [iter] }
        (next_field file (first_field file iter n)) "path name" true with hcf2 | ⟨d, hd, hcf2⟩
    swap
    · simp only [hcf2] at h
      cases h
      simp [List.filter_append, hd]
    simp only [hcf2] at h
    cases hloop : pSegLoop file (next_field file (first_field file iter n)) 0 (file.length + 1) with
    | out =>
        simp only [hloop] at h
        cases h
        rfl
    | bad f =>
        simp only [hloop] at h
        cases h
        simp [List.filter_append, isEmptyPathDiag]
    | done k f =>
        have hpos := pSegLoop_done_pos file (file.length + 1) _ 0 k f hloop
        have hk : (k == 0) = false := by
          simp only [beq_eq_false_iff_ne, ne_eq]
          omega
        simp only [hloop, hk, Bool.false_eq_true, if_false] at h
        exact LineResult.noConfusion h
  · decide

/-- Witness for C3's amended claim: the concrete failing `add_p_line` call
on `gfaEmptyPathFile` adds no empty-path diagnostic. -/
theorem c3_empty_p_line_shape_error_witness :
    add_p_line gfaEmptyPathFile (GFAFile.init gfaEmptyPathFile) 0 0 =
      .fail (failGfaOf gfaEmptyPathFile
        (add_p_line gfaEmptyPathFile (GFAFile.init gfaEmptyPathFile) 0 0))
    ∧ (failGfaOf gfaEmptyPathFile
        (add_p_line gfaEmptyPathFile (GFAFile.init gfaEmptyPathFile) 0 0)).diagnostics.filter
          isEmptyPathDiag =
      (GFAFile.init gfaEmptyPathFile).diagnostics.filter isEmptyPathDiag := by
  exact ⟨by decide, c3_empty_p_line_shape_error.1 gfaEmptyPathFile
    (GFAFile.init gfaEmptyPathFile) 0 0 _ (by decide)⟩

lemma secondFieldStrAt_line_num (file : List Char) (iter n : Nat) :
    fieldStr file (next_field file (first_field file iter n)) = secondFieldStrAt file iter := rfl

lemma s_line_tail_next (file : List Char) (g : GFAFile) (f : field_type) (it : Nat)
    (g' : GFAFile) (h : s_line_tail file g f = .next it g') :
    g'.s_lines = g.s_lines ∧ g'.l_lines = g.l_lines ∧ g'.p_lines = g.p_lines
    ∧ g'.w_lines = g.w_lines ∧ g'.translate_segment_ids = g.translate_segment_ids := by
  simp only [s_line_tail] at h
  rcases check_field_cases g (next_field file f) "sequence" false with hcf | ⟨d, _, hcf⟩
  · simp only [hcf] at h
    cases h
    exact ⟨rfl, rfl, rfl, rfl, rfl⟩
  · simp only [hcf] at h
    exact LineResult.noConfusion h

lemma s_line_tail_fail (file : List Char) (g : GFAFile) (f : field_type)
    (g' : GFAFile) (h : s_line_tail file g f = .fail g') : g'.valid_gfa = false := by
  simp only [s_line_tail] at h
  rcases check_field_cases g (next_field file f) "sequence" false with hcf | ⟨d, _, hcf⟩
  · simp only [hcf] at h
    exact LineResult.noConfusion h
  · simp only [hcf] at h
    cases h
    rfl

lemma add_s_line_next (file : List Char) (gfa : GFAFile) (iter n it : Nat) (g' : GFAFile)
    (h : add_s_line file gfa iter n = .next it g') :
    g'.s_lines = gfa.s_lines ++ [iter] ∧ g'.l_lines = gfa.l_lines ∧ g'.p_lines = gfa.p_lines
    ∧ g'.w_lines = gfa.w_lines
    ∧ g'.translate_segment_ids = (gfa.translate_segment_ids || forcesTranslation file iter) := by
  simp only [add_s_line] at h
  rcases check_field_cases { gfa with s_lines := gfa.s_lines ++ [iter] }
      (first_field file iter n) "record type" true with hcf | ⟨d, _, hcf⟩
  swap
  · simp only [hcf] at h
    exact LineResult.noConfusion h
  simp only [hcf] at h
  rcases check_field_cases { gfa with s_lines := gfa.s_lines ++ [iter] }
      (next_field file (first_field file iter n)) "segment name" true with hcf2 | ⟨d, _, hcf2⟩
  swap
  · simp only [hcf2] at h
    exact LineResult.noConfusion h
  simp only [hcf2] at h
  by_cases htr : gfa.translate_segment_ids = true
  · simp only [htr, if_true] at h
    have := s_line_tail_next file _ _ _ _ h
    simp only [this.1, this.2.1, this.2.2.1, this.2.2.2.1, this.2.2.2.2, htr, Bool.true_or]
    exact ⟨trivial, trivial, trivial, trivial, trivial⟩
  · rw [Bool.not_eq_true] at htr
    simp only [htr, Bool.false_eq_true, if_false] at h
    rw [forcesTranslation, ← secondFieldStrAt_line_num file iter n]
    cases hst : stoulChars (fieldStr file (next_field file (first_field file iter n))) with
    | invalid =>
        rw [hst] at h
        have := s_line_tail_next file _ _ _ _ h
        simp only [this.1, this.2.1, this.2.2.1, this.2.2.2.1, this.2.2.2.2, htr, Bool.false_or]
        exact ⟨trivial, trivial, trivial, trivial, trivial⟩
    | outOfRange =>
        rw [hst] at h
        exact LineResult.noConfusion h
    | ok v =>
        rw [hst] at h
        by_cases hv : (v == 0) = true
        · simp only [hv, if_true] at h
          have := s_line_tail_next file _ _ _ _ h
          simp only [this.1, this.2.1, this.2.2.1, this.2.2.2.1, this.2.2.2.2, htr, hv,
            Bool.false_or]
          exact ⟨trivial, trivial, trivial, trivial, trivial⟩
        · rw [Bool.not_eq_true] at hv
          simp only [hv, Bool.false_eq_true, if_false] at h
          have := s_line_tail_next file _ _ _ _ h
          simp only [this.1, this.2.1, this.2.2.1, this.2.2.2.1, this.2.2.2.2, htr, hv,
            Bool.false_or]
          exact ⟨trivial, trivial, trivial, trivial, trivial⟩

lemma add_s_line_fail (file : List Char) (gfa : GFAFile) (iter n : Nat) (g' : GFAFile)
    (h : add_s_line file gfa iter n = .fail g') : g'.valid_gfa = false := by
  simp only [add_s_line] at h
  rcases check_field_cases { gfa with s_lines := gfa.s_lines ++ [iter] }
      (first_field file iter n) "record type" true with hcf | ⟨d, _, hcf⟩
  swap
  · simp only [hcf] at h; cases h; rfl
  simp only [hcf] at h
  rcases check_field_cases { gfa with s_lines := gfa.s_lines ++ [iter] }
      (next_field file (first_field file iter n)) "segment name" true with hcf2 | ⟨d, _, hcf2⟩
  swap
  · simp only [hcf2] at h; cases h; rfl
  simp only [hcf2] at h
  by_cases htr : gfa.translate_segment_ids = true
  · simp only [htr, if_true] at h
    exact s_line_tail_fail _ _ _ _ h
  · rw [Bool.not_eq_true] at htr
    simp only [htr, Bool.false_eq_true, if_false] at h
    cases hst : stoulChars (fieldStr file (next_field file (first_field file iter n))) with
    | invalid => rw [hst] at h; exact s_line_tail_fail _ _ _ _ h
    | outOfRange => rw [hst] at h; exact LineResult.noConfusion h
    | ok v =>
        rw [hst] at h
        by_cases hv : (v == 0) = true
        · simp only [hv, if_true] at h; exact s_line_tail_fail _ _ _ _ h
        · rw [Bool.not_eq_true] at hv
          simp only [hv, Bool.false_eq_true, if_false] at h
          exact s_line_tail_fail _ _ _ _ h

lemma add_l_line_next (file : List Char) (gfa : GFAFile) (iter n it : Nat) (g' : GFAFile)
    (h : add_l_line file gfa iter n = .next it g') :
    g' = { gfa with l_lines := gfa.l_lines ++ [iter] } := by
  simp only [add_l_line] at h
  rcases check_field_cases { gfa with l_lines := gfa.l_lines ++ [iter] }
      (first_field file iter n) "record type" true with hcf | ⟨d, _, hcf⟩
  swap
  · simp only [hcf] at h; exact LineResult.noConfusion h
  simp only [hcf] at h
  rcases check_field_cases { gfa with l_lines := gfa.l_lines ++ [iter] }
      (next_field file (first_field file iter n)) "source segment" true with hcf2 | ⟨d, _, hcf2⟩
  swap
  · simp only [hcf2] at h; exact LineResult.noConfusion h
  simp only [hcf2] at h
  rcases check_field_cases { gfa with l_lines := gfa.l_lines ++ [iter] }
      (next_field file (next_field file (first_field file iter n)))
      "source orientation" true with hcf3 | ⟨d, _, hcf3⟩
  swap
  · simp only [hcf3] at h; exact LineResult.noConfusion h
  simp only [hcf3] at h
  by_cases ho1 : valid_orientation file
      (next_field file (next_field file (first_field file iter n))) = true
  swap
  · rw [Bool.not_eq_true] at ho1
    simp only [ho1, Bool.not_false, if_true] at h
    exact LineResult.noConfusion h
  simp only [ho1, Bool.not_true, Bool.false_eq_true, if_false] at h
  rcases check_field_cases { gfa with l_lines := gfa.l_lines ++ [iter] }
      (next_field file (next_field file (next_field file (first_field file iter n))))
      "destination segment" true with hcf4 | ⟨d, _, hcf4⟩
  swap
  · simp only [hcf4] at h; exact LineResult.noConfusion h
  simp only [hcf4] at h
  rcases check_field_cases { gfa with l_lines := gfa.l_lines ++ [iter] }
      (next_field file (next_field file (next_field file (next_field file
        (first_field file iter n)))))
      "destination orientation" false with hcf5 | ⟨d, _, hcf5⟩
  swap
  · simp only [hcf5] at h; exact LineResult.noConfusion h
  simp only [hcf5] at h
  by_cases ho2 : valid_orientation file
      (next_field file (next_field file (next_field file (next_field file
        (first_field file iter n))))) = true
  swap
  · rw [Bool.not_eq_true] at ho2
    simp only [ho2, Bool.not_false, if_true] at h
    exact LineResult.noConfusion h
  simp only [ho2, Bool.not_true, Bool.false_eq_true, if_false] at h
  cases h
  rfl

lemma add_l_line_fail (file : List Char) (gfa : GFAFile) (iter n : Nat) (g' : GFAFile)
    (h : add_l_line file gfa iter n = .fail g') : g'.valid_gfa = false := by
  simp only [add_l_line] at h
  rcases check_field_cases { gfa with l_lines := gfa.l_lines ++ [iter] }
      (first_field file iter n) "record type" true with hcf | ⟨d, _, hcf⟩
  swap
  · simp only [hcf] at h; cases h; rfl
  simp only [hcf] at h
  rcases check_field_cases { gfa with l_lines := gfa.l_lines ++ [iter] }
      (next_field file (first_field file iter n)) "source segment" true with hcf2 | ⟨d, _, hcf2⟩
  swap
  · simp only [hcf2] at h; cases h; rfl
  simp only [hcf2] at h
  rcases check_field_cases { gfa with l_lines := gfa.l_lines ++ [iter] }
      (next_field file (next_field file (first_field file iter n)))
      "source orientation" true with hcf3 | ⟨d, _, hcf3⟩
  swap
  · simp only [hcf3] at h; cases h; rfl
  simp only [hcf3] at h
  by_cases ho1 : valid_orientation file
      (next_field file (next_field file (first_field file iter n))) = true
  swap
  · rw [Bool.not_eq_true] at ho1
    simp only [ho1, Bool.not_false, if_true] at h
    cases h; rfl
  simp only [ho1, Bool.not_true, Bool.false_eq_true, if_false] at h
  rcases check_field_cases { gfa with l_lines := gfa.l_lines ++ [iter] }
      (next_field file (next_field file (next_field file (first_field file iter n))))
      "destination segment" true with hcf4 | ⟨d, _, hcf4⟩
  swap
  · simp only [hcf4] at h; cases h; rfl
  simp only [hcf4] at h
  rcases check_field_cases { gfa with l_lines := gfa.l_lines ++ [iter] }
      (next_field file (next_field file (next_field file (next_field file
        (first_field file iter n)))))
      "destination orientation" false with hcf5 | ⟨d, _, hcf5⟩
  swap
  · simp only [hcf5] at h; cases h; rfl
  simp only [hcf5] at h
  by_cases ho2 : valid_orientation file
      (next_field file (next_field file (next_field file (next_field file
        (first_field file iter n))))) = true
  swap
  · rw [Bool.not_eq_true] at ho2
    simp only [ho2, Bool.not_false, if_true] at h
    cases h; rfl
  simp only [ho2, Bool.not_true, Bool.false_eq_true, if_false] at h
  exact LineResult.noConfusion h

lemma next_subfield_end (file : List Char) (f : field_type) :
    (next_subfield file f).end_ = scanTo is_subfield_end file (f.end_ + 1) := rfl

lemma next_subfield_has_next (file : List Char) (f : field_type) :
    (next_subfield file f).has_next =
      (decide (scanTo is_subfield_end file (f.end_ + 1) < file.length)
        && (charAt file (scanTo is_subfield_end file (f.end_ + 1)) == ',')) := rfl

lemma pSegLoop_done_isSome (file : List Char) :
    ∀ (fuel : Nat) (f : field_type) (c k : Nat) (f' : field_type),
      pSegLoop file f c fuel = .done k f' →
      (pathSegsFromPos file f.end_ fuel).isSome = true := by
  intro fuel
  induction fuel with
  | zero => intro f c k f' h; simp [pSegLoop] at h
  | succ fuel ih =>
    intro f c k f' h
    simp only [pSegLoop] at h
    simp only [pathSegsFromPos]
    split at h
    · split at h
      · rename_i hhn
        have hin := ih _ _ _ _ h
        rw [next_subfield_end] at hin
        rw [next_subfield_has_next] at hhn
        rw [hhn]
        simp only [if_true]
        simpa using hin
      · rename_i hhn
        rw [Bool.not_eq_true, next_subfield_has_next] at hhn
        rw [hhn]
        simp
    · exact SubLoopResult.noConfusion h

lemma next_walk_subfield_end (file : List Char) (f : field_type) :
    (next_walk_subfield file f).end_ =
      (if decide (f.end_ < file.length) && is_walk_start (charAt file f.end_) then
        scanTo is_walk_subfield_end file (f.end_ + 1)
      else f.end_) := rfl

lemma next_walk_subfield_has_next (file : List Char) (f : field_type) :
    (next_walk_subfield file f).has_next =
      (decide ((next_walk_subfield file f).end_ < file.length)
        && is_walk_start (charAt file (next_walk_subfield file f).end_)) := rfl

lemma wSegLoop_done_isSome (file : List Char) :
    ∀ (fuel : Nat) (f : field_type) (c k : Nat) (f' : field_type),
      wSegLoop file f c fuel = .done k f' →
      (walkSegsFromPos file f.end_ fuel).isSome = true := by
  intro fuel
  induction fuel with
  | zero => intro f c k f' h; simp [wSegLoop] at h
  | succ fuel ih =>
    intro f c k f' h
    simp only [wSegLoop] at h
    simp only [walkSegsFromPos]
    split at h
    · split at h
      · rename_i hhn
        have hin := ih _ _ _ _ h
        rw [next_walk_subfield_end] at hin
        rw [next_walk_subfield_has_next, next_walk_subfield_end] at hhn
        rw [hhn]
        simp only [if_true]
        simpa using hin
      · rename_i hhn
        rw [Bool.not_eq_true, next_walk_subfield_has_next, next_walk_subfield_end] at hhn
        rw [hhn]
        simp
    · exact SubLoopResult.noConfusion h

lemma add_p_line_next (file : List Char) (gfa : GFAFile) (iter n it : Nat) (g' : GFAFile)
    (h : add_p_line file gfa iter n = .next it g') :
    (∃ k, g' = { gfa with p_lines := gfa.p_lines ++ [iter],
                          max_path_length := max gfa.max_path_length k })
    ∧ (pathSegsAt file iter).isSome = true := by
  simp only [add_p_line] at h
  rcases check_field_cases { gfa with p_lines := gfa.p_lines ++ [iter] }
      (first_field file iter n) "record type" true with hcf | ⟨d, _, hcf⟩
  swap
  · simp only [hcf] at h; exact LineResult.noConfusion h
  simp only [hcf] at h
  rcases check_field_cases { gfa with p_lines := gfa.p_lines ++ [iter] }
      (next_field file (first_field file iter n)) "path name" true with hcf2 | ⟨d, _, hcf2⟩
  swap
  · simp only [hcf2] at h; exact LineResult.noConfusion h
  simp only [hcf2] at h
  cases hloop : pSegLoop file (next_field file (first_field file iter n)) 0 (file.length + 1) with
  | out => rw [hloop] at h; exact LineResult.noConfusion h
  | bad f => rw [hloop] at h; exact LineResult.noConfusion h
  | done k f =>
      rw [hloop] at h
      by_cases hk : (k == 0) = true
      · simp only [hk, if_true] at h
        exact LineResult.noConfusion h
      · rw [Bool.not_eq_true] at hk
        simp only [hk, Bool.false_eq_true, if_false] at h
        cases h
        refine ⟨⟨k, rfl⟩, ?_⟩
        have hs := pSegLoop_done_isSome file (file.length + 1) _ _ _ _ hloop
        exact hs

lemma add_p_line_fail (file : List Char) (gfa : GFAFile) (iter n : Nat) (g' : GFAFile)
    (h : add_p_line file gfa iter n = .fail g') : g'.valid_gfa = false := by
  simp only [add_p_line] at h
  rcases check_field_cases { gfa with p_lines := gfa.p_lines ++ [iter] }
      (first_field file iter n) "record type" true with hcf | ⟨d, _, hcf⟩
  swap
  · simp only [hcf] at h; cases h; rfl
  simp only [hcf] at h
  rcases check_field_cases { gfa with p_lines := gfa.p_lines ++ [iter] }
      (next_field file (first_field file iter n)) "path name" true with hcf2 | ⟨d, _, hcf2⟩
  swap
  · simp only [hcf2] at h; cases h; rfl
  simp only [hcf2] at h
  cases hloop : pSegLoop file (next_field file (first_field file iter n)) 0 (file.length + 1) with
  | out => rw [hloop] at h; cases h; rfl
  | bad f => rw [hloop] at h; cases h; rfl
  | done k f =>
      rw [hloop] at h
      by_cases hk : (k == 0) = true
      · simp only [hk, if_true] at h
        cases h; rfl
      · rw [Bool.not_eq_true] at hk
        simp only [hk, Bool.false_eq_true, if_false] at h
        exact LineResult.noConfusion h

lemma add_w_line_next (file : List Char) (gfa : GFAFile) (iter n it : Nat) (g' : GFAFile)
    (h : add_w_line file gfa iter n = .next it g') :
    (∃ k, g' = { gfa with w_lines := gfa.w_lines ++ [iter],
                          max_path_length := max gfa.max_path_length k })
    ∧ (walkSegsAt file iter).isSome = true := by
  simp only [add_w_line] at h
  rcases check_field_cases { gfa with w_lines := gfa.w_lines ++ [iter] }
      (first_field file iter n) "record type" true with hcf | ⟨d, _, hcf⟩
  swap
  · simp only [hcf] at h; exact LineResult.noConfusion h
  simp only [hcf] at h
  rcases check_field_cases { gfa with w_lines := gfa.w_lines ++ [iter] }
      (next_field file (first_field file iter n)) "sample name" true with hcf2 | ⟨d, _, hcf2⟩
  swap
  · simp only [hcf2] at h; exact LineResult.noConfusion h
  simp only [hcf2] at h
  rcases check_field_cases { gfa with w_lines := gfa.w_lines ++ [iter] }
      (next_field file (next_field file (first_field file iter n)))
      "haplotype index" true with hcf3 | ⟨d, _, hcf3⟩
  swap
  · simp only [hcf3] at h; exact LineResult.noConfusion h
  simp only [hcf3] at h
  rcases check_field_cases { gfa with w_lines := gfa.w_lines ++ [iter] }
      (next_field file (next_field file (next_field file (first_field file iter n))))
      "contig name" true with hcf4 | ⟨d, _, hcf4⟩
  swap
  · simp only [hcf4] at h; exact LineResult.noConfusion h
  simp only [hcf4] at h
  rcases check_field_cases { gfa with w_lines := gfa.w_lines ++ [iter] }
      (next_field file (next_field file (next_field file (next_field file
        (first_field file iter n)))))
      "start position" true with hcf5 | ⟨d, _, hcf5⟩
  swap
  · simp only [hcf5] at h; exact LineResult.noConfusion h
  simp only [hcf5] at h
  rcases check_field_cases { gfa with w_lines := gfa.w_lines ++ [iter] }
      (next_field file (next_field file (next_field file (next_field file (next_field file
        (first_field file iter n))))))
      "end position" true with hcf6 | ⟨d, _, hcf6⟩
  swap
  · simp only [hcf6] at h; exact LineResult.noConfusion h
  simp only [hcf6] at h
  cases hloop : wSegLoop file
      (start_walk (next_field file (next_field file (next_field file (next_field file
        (next_field file (first_field file iter n)))))))
      0 (file.length + 1) with
  | out => rw [hloop] at h; exact LineResult.noConfusion h
  | bad f => rw [hloop] at h; exact LineResult.noConfusion h
  | done k f =>
      rw [hloop] at h
      by_cases hk : (k == 0) = true
      · simp only [hk, if_true] at h
        exact LineResult.noConfusion h
      · rw [Bool.not_eq_true] at hk
        simp only [hk, Bool.false_eq_true, if_false] at h
        cases h
        refine ⟨⟨k, rfl⟩, ?_⟩
        have hs := wSegLoop_done_isSome file (file.length + 1) _ _ _ _ hloop
        exact hs

lemma add_w_line_fail (file : List Char) (gfa : GFAFile) (iter n : Nat) (g' : GFAFile)
    (h : add_w_line file gfa iter n = .fail g') : g'.valid_gfa = false := by
  simp only [add_w_line] at h
  rcases check_field_cases { gfa with w_lines := gfa.w_lines ++ [iter] }
      (first_field file iter n) "record type" true with hcf | ⟨d, _, hcf⟩
  swap
  · simp only [hcf] at h; cases h; rfl
  simp only [hcf] at h
  rcases check_field_cases { gfa with w_lines := gfa.w_lines ++ [iter] }
      (next_field file (first_field file iter n)) "sample name" true with hcf2 | ⟨d, _, hcf2⟩
  swap
  · simp only [hcf2] at h; cases h; rfl
  simp only [hcf2] at h
  rcases check_field_cases { gfa with w_lines := gfa.w_lines ++ [iter] }
      (next_field file (next_field file (first_field file iter n)))
      "haplotype index" true with hcf3 | ⟨d, _, hcf3⟩
  swap
  · simp only [hcf3] at h; cases h; rfl
  simp only [hcf3] at h
  rcases check_field_cases { gfa with w_lines := gfa.w_lines ++ [iter] }
      (next_field file (next_field file (next_field file (first_field file iter n))))
      "contig name" true with hcf4 | ⟨d, _, hcf4⟩
  swap
  · simp only [hcf4] at h; cases h; rfl
  simp only [hcf4] at h
  rcases check_field_cases { gfa with w_lines := gfa.w_lines ++ [iter] }
      (next_field file (next_field file (next_field file (next_field file
        (first_field file iter n)))))
      "start position" true with hcf5 | ⟨d, _, hcf5⟩
  swap
  · simp only [hcf5] at h; cases h; rfl
  simp only [hcf5] at h
  rcases check_field_cases { gfa with w_lines := gfa.w_lines ++ [iter] }
      (next_field file (next_field file (next_field file (next_field file (next_field file
        (first_field file iter n))))))
      "end position" true with hcf6 | ⟨d, _, hcf6⟩
  swap
  · simp only [hcf6] at h; cases h; rfl
  simp only [hcf6] at h
  cases hloop : wSegLoop file
      (start_walk (next_field file (next_field file (next_field file (next_field file
        (next_field file (first_field file iter n)))))))
      0 (file.length + 1) with
  | out => rw [hloop] at h; cases h; rfl
  | bad f => rw [hloop] at h; cases h; rfl
  | done k f =>
      rw [hloop] at h
      by_cases hk : (k == 0) = true
      · simp only [hk, if_true] at h
        cases h; rfl
      · rw [Bool.not_eq_true] at hk
        simp only [hk, Bool.false_eq_true, if_false] at h
        exact LineResult.noConfusion h

/-- Invariant maintained by the preprocessing loop over valid states: the
translation flag tracks exactly the recorded S-lines whose name forces
translation, and every recorded P-line / W-line has a well-formed
subfield list reachable by the rescan extraction. -/
def preprocInv (file : List Char) (g : GFAFile) : Prop :=
  g.translate_segment_ids = g.s_lines.any (forcesTranslation file)
  ∧ (∀ off ∈ g.p_lines, (pathSegsAt file off).isSome = true)
  ∧ (∀ off ∈ g.w_lines, (walkSegsAt file off).isSome = true)

lemma preprocessLoop_inv (file : List Char) :
    ∀ (fuel : Nat) (gfa : GFAFile) (iter n : Nat) (out : GFAFile),
      preprocessLoop file gfa iter n fuel = some out → out.valid_gfa = true →
      preprocInv file gfa → preprocInv file out := by
  intro fuel
  induction fuel with
  | zero => intro gfa iter n out h _ _; simp [preprocessLoop] at h
  | succ fuel ih =>
    intro gfa iter n out h hval hinv
    simp only [preprocessLoop] at h
    by_cases hlt : iter < file.length
    swap
    · simp only [if_neg hlt] at h
      cases h
      exact hinv
    simp only [if_pos hlt] at h
    by_cases hS : (charAt file iter == 'S') = true
    · simp only [hS, if_true] at h
      cases hstep : add_s_line file gfa iter n with
      | crash => rw [hstep] at h; exact Option.noConfusion h
      | fail g1 =>
          rw [hstep] at h
          cases h
          have hbad := add_s_line_fail file gfa iter n out hstep
          rw [hval] at hbad
          exact Bool.noConfusion hbad
      | next it g1 =>
          rw [hstep] at h
          refine ih _ _ _ _ h hval ?_
          obtain ⟨h1, _, h3, h4, h5⟩ := add_s_line_next file gfa iter n it g1 hstep
          refine ⟨?_, ?_, ?_⟩
          · rw [h5, h1, hinv.1]
            simp [List.any_append]
          · rw [h3]; exact hinv.2.1
          · rw [h4]; exact hinv.2.2
    · simp only [hS, Bool.false_eq_true, if_false] at h
      by_cases hL : (charAt file iter == 'L') = true
      · simp only [hL, if_true] at h
        cases hstep : add_l_line file gfa iter n with
        | crash => rw [hstep] at h; exact Option.noConfusion h
        | fail g1 =>
            rw [hstep] at h
            cases h
            have hbad := add_l_line_fail file gfa iter n out hstep
            rw [hval] at hbad
            exact Bool.noConfusion hbad
        | next it g1 =>
            rw [hstep] at h
            refine ih _ _ _ _ h hval ?_
            rw [add_l_line_next file gfa iter n it g1 hstep]
            exact ⟨hinv.1, hinv.2.1, hinv.2.2⟩
      · simp only [hL, Bool.false_eq_true, if_false] at h
        by_cases hP : (charAt file iter == 'P') = true
        · simp only [hP, if_true] at h
          cases hstep : add_p_line file gfa iter n with
          | crash => rw [hstep] at h; exact Option.noConfusion h
          | fail g1 =>
              rw [hstep] at h
              cases h
              have hbad := add_p_line_fail file gfa iter n out hstep
              rw [hval] at hbad
              exact Bool.noConfusion hbad
          | next it g1 =>
              rw [hstep] at h
              refine ih _ _ _ _ h hval ?_
              obtain ⟨⟨k, hg⟩, hsome⟩ := add_p_line_next file gfa iter n it g1 hstep
              rw [hg]
              refine ⟨hinv.1, ?_, hinv.2.2⟩
              intro off hoff
              rcases List.mem_append.mp hoff with hin | hin
              · exact hinv.2.1 off hin
              · rw [List.mem_singleton] at hin
                rw [hin]
                exact hsome
        · simp only [hP, Bool.false_eq_true, if_false] at h
          by_cases hW : (charAt file iter == 'W') = true
          · simp only [hW, if_true] at h
            cases hstep : add_w_line file gfa iter n with
            | crash => rw [hstep] at h; exact Option.noConfusion h
            | fail g1 =>
                rw [hstep] at h
                cases h
                have hbad := add_w_line_fail file gfa iter n out hstep
                rw [hval] at hbad
                exact Bool.noConfusion hbad
            | next it g1 =>
                rw [hstep] at h
                refine ih _ _ _ _ h hval ?_
                obtain ⟨⟨k, hg⟩, hsome⟩ := add_w_line_next file gfa iter n it g1 hstep
                rw [hg]
                refine ⟨hinv.1, hinv.2.1, ?_⟩
                intro off hoff
                rcases List.mem_append.mp hoff with hin | hin
                · exact hinv.2.2 off hin
                · rw [List.mem_singleton] at hin
                  rw [hin]
                  exact hsome
          · simp only [hW, Bool.false_eq_true, if_false] at h
            exact ih _ _ _ _ h hval hinv

/-- A successful preprocessing pass establishes the loop invariant. -/
lemma preprocess_inv (file : List Char) (gfa : GFAFile)
    (h : GFAFile.preprocess file = some gfa) (hval : gfa.valid_gfa = true) :
    preprocInv file gfa := by
  refine preprocessLoop_inv file (file.length + 1) _ 0 0 _ h hval ?_
  refine ⟨rfl, ?_, ?_⟩ <;> intro off hoff <;> simp [GFAFile.init] at hoff

/-- C4 (amended): after a successful preprocessing pass,
`translate_segment_ids` is true iff some recorded S-line name forces
translation under `std::stoul` semantics — the name has no parseable
integer prefix (`std::invalid_argument`), or its parsed value is zero.
(A name whose integer prefix parses but that is not a pure numeral, such
as `1x`, does not force translation.) -/
theorem c4_translate_flag_iff_stoul :
    ∀ (file : List Char) (gfa : GFAFile),
      GFAFile.preprocess file = some gfa → gfa.valid_gfa = true →
      gfa.translate_segment_ids = gfa.s_lines.any (forcesTranslation file) := by
  intro file gfa h hval
  exact (preprocess_inv file gfa h hval).1

/-- Witness for C4's amended claim on `gfaZeroNameFile`, whose first
segment name `0` parses to zero and sets the flag. -/
theorem c4_translate_flag_iff_stoul_witness :
    (preprocessedOf gfaZeroNameFile).translate_segment_ids =
      (preprocessedOf gfaZeroNameFile).s_lines.any (forcesTranslation gfaZeroNameFile)
    ∧ (preprocessedOf gfaZeroNameFile).translate_segment_ids = true := by
  exact ⟨c4_translate_flag_iff_stoul gfaZeroNameFile (preprocessedOf gfaZeroNameFile)
    (by decide) (by decide), by decide⟩

/-- Fold a segment callback with early stop over an extracted subfield
list: the reference semantics of the inner rescan loops. -/
def foldSegs {σ : Type} (cb : σ → List Char → Bool → σ × Bool) :
    σ → List (List Char × Bool) → σ × Bool
  | s, [] => (s, true)
  | s, (nm, rv) :: rest =>
    match cb s nm rv with
    | (s, false) => (s, false)
    | (s, true) => foldSegs cb s rest

lemma forEachPathSegs_eq_foldSegs {σ : Type} (file : List Char)
    (cb : σ → List Char → Bool → σ × Bool) :
    ∀ (fuel : Nat) (f : field_type) (segs : List (List Char × Bool)) (s : σ),
      pathSegsFromPos file f.end_ fuel = some segs →
      forEachPathSegs file cb f s fuel = foldSegs cb s segs := by
  intro fuel
  induction fuel with
  | zero => intro f segs s h; simp [pathSegsFromPos] at h
  | succ fuel ih =>
    intro f segs s h
    simp only [pathSegsFromPos] at h
    simp only [forEachPathSegs]
    have e1 : path_segment file (next_subfield file f) =
        strRange file (f.end_ + 1) (scanTo is_subfield_end file (f.end_ + 1) - 1) := rfl
    have e2 : is_reverse_path_segment file (next_subfield file f) =
        (charAt file (scanTo is_subfield_end file (f.end_ + 1) - 1) == '-') := rfl
    rw [e1, e2]
    by_cases hn : (decide (scanTo is_subfield_end file (f.end_ + 1) < file.length)
        && (charAt file (scanTo is_subfield_end file (f.end_ + 1)) == ',')) = true
    · rw [if_pos hn] at h
      rcases Option.map_eq_some'.mp h with ⟨rest, hrest, hsegs⟩
      subst hsegs
      simp only [foldSegs]
      cases hcb : cb s (strRange file (f.end_ + 1) (scanTo is_subfield_end file (f.end_ + 1) - 1))
          (charAt file (scanTo is_subfield_end file (f.end_ + 1) - 1) == '-') with
      | mk s' ok =>
        cases ok with
        | false => rfl
        | true =>
            simp only []
            rw [next_subfield_has_next, hn, if_pos rfl]
            refine ih (next_subfield file f) rest s' ?_
            rw [next_subfield_end]
            exact hrest
    · rw [if_neg hn] at h
      cases h
      simp only [foldSegs]
      cases hcb : cb s (strRange file (f.end_ + 1) (scanTo is_subfield_end file (f.end_ + 1) - 1))
          (charAt file (scanTo is_subfield_end file (f.end_ + 1) - 1) == '-') with
      | mk s' ok =>
        cases ok with
        | false => rfl
        | true =>
            simp only []
            rw [Bool.not_eq_true] at hn
            rw [next_subfield_has_next, hn]
            simp

lemma forEachWalkSegs_eq_foldSegs {σ : Type} (file : List Char)
    (cb : σ → List Char → Bool → σ × Bool) :
    ∀ (fuel : Nat) (f : field_type) (segs : List (List Char × Bool)) (s : σ),
      walkSegsFromPos file f.end_ fuel = some segs →
      forEachWalkSegs file cb f s fuel = foldSegs cb s segs := by
  intro fuel
  induction fuel with
  | zero => intro f segs s h; simp [walkSegsFromPos] at h
  | succ fuel ih =>
    intro f segs s h
    simp only [walkSegsFromPos] at h
    simp only [forEachWalkSegs]
    have e1 : walk_segment file (next_walk_subfield file f) =
        strRange file (f.end_ + 1)
          (if decide (f.end_ < file.length) && is_walk_start (charAt file f.end_) then
            scanTo is_walk_subfield_end file (f.end_ + 1)
          else f.end_) := rfl
    have e2 : is_reverse_walk_segment file (next_walk_subfield file f) =
        (charAt file f.end_ == '<') := rfl
    rw [e1, e2]
    by_cases hn : (decide ((if decide (f.end_ < file.length) && is_walk_start (charAt file f.end_)
          then scanTo is_walk_subfield_end file (f.end_ + 1) else f.end_) < file.length)
        && is_walk_start (charAt file
          (if decide (f.end_ < file.length) && is_walk_start (charAt file f.end_)
            then scanTo is_walk_subfield_end file (f.end_ + 1) else f.end_))) = true
    · rw [if_pos hn] at h
      rcases Option.map_eq_some'.mp h with ⟨rest, hrest, hsegs⟩
      subst hsegs
      simp only [foldSegs]
      cases hcb : cb s (strRange file (f.end_ + 1)
          (if decide (f.end_ < file.length) && is_walk_start (charAt file f.end_) then
            scanTo is_walk_subfield_end file (f.end_ + 1)
          else f.end_)) (charAt file f.end_ == '<') with
      | mk s' ok =>
        cases ok with
        | false => rfl
        | true =>
            simp only []
            rw [next_walk_subfield_has_next, next_walk_subfield_end, hn, if_pos rfl]
            refine ih (next_walk_subfield file f) rest s' ?_
            rw [next_walk_subfield_end]
            exact hrest
    · rw [if_neg hn] at h
      cases h
      simp only [foldSegs]
      cases hcb : cb s (strRange file (f.end_ + 1)
          (if decide (f.end_ < file.length) && is_walk_start (charAt file f.end_) then
            scanTo is_walk_subfield_end file (f.end_ + 1)
          else f.end_)) (charAt file f.end_ == '<') with
      | mk s' ok =>
        cases ok with
        | false => rfl
        | true =>
            simp only []
            rw [Bool.not_eq_true] at hn
            rw [next_walk_subfield_has_next, next_walk_subfield_end, hn]
            simp

/-- Does the encoder resolve this segment name?  In direct mode always; in
translated mode exactly when the translation table has an entry (the
`(0, 0)` sentinel means it does not). -/
def resolves (src : SequenceSource) (name : List Char) : Bool :=
  !src.uses_translation || !(src.get_translation name == (0, 0))

/-- Every segment referenced by some recorded P-line or W-line of the
file resolves in the sequence store. -/
def allResolve (file : List Char) (gfa : GFAFile) (src : SequenceSource) : Bool :=
  gfa.p_lines.all (fun off => ((pathSegsAt file off).getD []).all (fun p => resolves src p.1))
  && gfa.w_lines.all (fun off => ((walkSegsAt file off).getD []).all (fun p => resolves src p.1))

lemma add_segment_resolves (src : SequenceSource) (cp : List Nat) (nm : List Char) (rv : Bool)
    (h : resolves src nm = true) : (add_segment src cp nm rv).2 = true := by
  unfold add_segment
  unfold resolves at h
  by_cases hu : src.uses_translation = true
  · rw [hu] at h
    simp only [Bool.not_true, Bool.false_or, Bool.not_eq_true'] at h
    cases hg : src.get_translation nm with
    | mk a b =>
      rw [hg] at h
      have hab : (a == 0 && b == 0) = false := h
      simp only [hu, if_true, hg, hab, Bool.false_eq_true, if_false]
      by_cases hrv : rv = true
      · rw [if_pos hrv]
      · rw [if_neg hrv]
  · rw [Bool.not_eq_true] at hu
    simp [hu]

lemma foldSegs_all_resolve (src : SequenceSource) :
    ∀ (segs : List (List Char × Bool)) (cp : List Nat) (b : GBWTBuilder),
      (∀ p ∈ segs, resolves src p.1 = true) →
      ∃ cp', foldSegs (fun (s : List Nat × GBWTBuilder) name is_reverse =>
          let r := add_segment src s.1 name is_reverse
          ((r.1, s.2), r.2)) (cp, b) segs = ((cp', b), true) := by
  intro segs
  induction segs with
  | nil => intro cp b _; exact ⟨cp, rfl⟩
  | cons p rest ih =>
    intro cp b hall
    cases p with
    | mk nm rv =>
      have hr : (add_segment src cp nm rv).2 = true :=
        add_segment_resolves src cp nm rv (hall (nm, rv) (List.mem_cons_self _ _))
      cases hadd : add_segment src cp nm rv with
      | mk cp2 ok =>
        rw [hadd] at hr
        subst hr
        obtain ⟨cp', hfold⟩ := ih cp2 b (fun q hq => hall q (List.mem_cons_of_mem _ hq))
        refine ⟨cp', ?_⟩
        simp only [foldSegs, hadd]
        exact hfold

lemma forEachPathLoop_count (file : List Char) (src : SequenceSource) :
    ∀ (offs : List Nat) (cp : List Nat) (b : GBWTBuilder),
      (∀ off ∈ offs, (pathSegsAt file off).isSome = true
        ∧ ∀ p ∈ (pathSegsAt file off).getD [], resolves src p.1 = true) →
      ∃ cp' b', forEachPathLoop file (fun s _ => (s, true))
          (fun (s : List Nat × GBWTBuilder) name is_reverse =>
            let r := add_segment src s.1 name is_reverse
            ((r.1, s.2), r.2))
          (fun s => (([], s.2.insert s.1 true), true)) offs (cp, b) = (cp', b')
        ∧ b'.inserted.length = b.inserted.length + offs.length := by
  intro offs
  induction offs with
  | nil => intro cp b _; exact ⟨cp, b, rfl, rfl⟩
  | cons off rest ih =>
    intro cp b hall
    obtain ⟨hsome, hres⟩ := hall off (List.mem_cons_self _ _)
    obtain ⟨segs, hsegs⟩ := Option.isSome_iff_exists.mp hsome
    have hsegs' : pathSegsFromPos file (next_field file (first_field file off 0)).end_
        (file.length + 1) = some segs := hsegs
    have hbridge := forEachPathSegs_eq_foldSegs file
        (fun (s : List Nat × GBWTBuilder) name is_reverse =>
          let r := add_segment src s.1 name is_reverse
          ((r.1, s.2), r.2))
        (file.length + 1) (next_field file (first_field file off 0)) segs (cp, b) hsegs'
    have hres' : ∀ p ∈ segs, resolves src p.1 = true := by
      intro p hp
      have := hres p
      rw [hsegs] at this
      exact this hp
    obtain ⟨cp2, hfold⟩ := foldSegs_all_resolve src segs cp b hres'
    obtain ⟨cp', b', hloop, hlen⟩ :=
      ih [] (b.insert cp2 true) (fun o ho => hall o (List.mem_cons_of_mem _ ho))
    refine ⟨cp', b', ?_, ?_⟩
    · simp only [forEachPathLoop]
      rw [hbridge, hfold]
      exact hloop
    · rw [hlen]
      simp only [GBWTBuilder.insert, List.length_append, List.length_cons, List.length_nil,
        List.length_singleton]
      omega

lemma forEachWalkLoop_count (file : List Char) (src : SequenceSource) :
    ∀ (offs : List Nat) (cp : List Nat) (b : GBWTBuilder),
      (∀ off ∈ offs, (walkSegsAt file off).isSome = true
        ∧ ∀ p ∈ (walkSegsAt file off).getD [], resolves src p.1 = true) →
      ∃ cp' b', forEachWalkLoop file (fun s _ _ _ _ => (s, true))
          (fun (s : List Nat × GBWTBuilder) name is_reverse =>
            let r := add_segment src s.1 name is_reverse
            ((r.1, s.2), r.2))
          (fun s => (([], s.2.insert s.1 true), true)) offs (cp, b) = (cp', b')
        ∧ b'.inserted.length = b.inserted.length + offs.length := by
  intro offs
  induction offs with
  | nil => intro cp b _; exact ⟨cp, b, rfl, rfl⟩
  | cons off rest ih =>
    intro cp b hall
    obtain ⟨hsome, hres⟩ := hall off (List.mem_cons_self _ _)
    obtain ⟨segs, hsegs⟩ := Option.isSome_iff_exists.mp hsome
    have hsegs' : walkSegsFromPos file
        ((start_walk (next_field file (next_field file (next_field file (next_field file
          (next_field file (first_field file off 0))))))).end_)
        (file.length + 1) = some segs := hsegs
    have hbridge := forEachWalkSegs_eq_foldSegs file
        (fun (s : List Nat × GBWTBuilder) name is_reverse =>
          let r := add_segment src s.1 name is_reverse
          ((r.1, s.2), r.2))
        (file.length + 1)
        (start_walk (next_field file (next_field file (next_field file (next_field file
          (next_field file (first_field file off 0)))))))
        segs (cp, b) hsegs'
    have hres' : ∀ p ∈ segs, resolves src p.1 = true := by
      intro p hp
      have := hres p
      rw [hsegs] at this
      exact this hp
    obtain ⟨cp2, hfold⟩ := foldSegs_all_resolve src segs cp b hres'
    obtain ⟨cp', b', hloop, hlen⟩ :=
      ih [] (b.insert cp2 true) (fun o ho => hall o (List.mem_cons_of_mem _ ho))
    refine ⟨cp', b', ?_, ?_⟩
    · simp only [forEachWalkLoop]
      rw [hbridge, hfold]
      exact hloop
    · rw [hlen]
      simp only [GBWTBuilder.insert, List.length_append, List.length_cons, List.length_nil,
        List.length_singleton]
      omega

/-- C6 (amended): for every file that preprocesses successfully and in
which every segment referenced by a path or walk resolves in the sequence
store (in direct mode, or with a translation entry), the path encoder
performs exactly one builder insertion per P-line and one per W-line. -/
theorem c6_insertions_count :
    ∀ (file : List Char) (gfa : GFAFile) (src : SequenceSource) (b : GBWTBuilder),
      GFAFile.preprocess file = some gfa → gfa.ok = true →
      allResolve file gfa src = true →
      (parse_paths file gfa src b).inserted.length =
        b.inserted.length + gfa.p_lines.length + gfa.w_lines.length := by
  intro file gfa src b hpre hok hres
  have hval : gfa.valid_gfa = true := by
    have h := hok
    unfold GFAFile.ok at h
    rw [Bool.and_eq_true] at h
    exact h.2
  have hinv := preprocess_inv file gfa hpre hval
  unfold allResolve at hres
  rw [Bool.and_eq_true] at hres
  obtain ⟨hp, hw⟩ := hres
  rw [List.all_eq_true] at hp hw
  obtain ⟨cp1, b1, hloop1, hlen1⟩ := forEachPathLoop_count file src gfa.p_lines [] b
    (fun off hoff => ⟨hinv.2.1 off hoff, by
      have h2 := hp off hoff
      rw [List.all_eq_true] at h2
      exact h2⟩)
  obtain ⟨cp2, b2, hloop2, hlen2⟩ := forEachWalkLoop_count file src gfa.w_lines cp1 b1
    (fun off hoff => ⟨hinv.2.2 off hoff, by
      have h2 := hw off hoff
      rw [List.all_eq_true] at h2
      exact h2⟩)
  unfold parse_paths for_each_path for_each_walk
  simp only [hok, Bool.not_true, Bool.false_eq_true, if_false]
  rw [hloop1, hloop2]
  simp only [GBWTBuilder.finish]
  omega

/-- The empty builder handle used by witnesses. -/
def emptyBuilder : GBWTBuilder :=
  { node_width := 0, batch_size := 0, sample_interval := 0, metadata_events := [],
    inserted := [], finished := false }

/-- The sequence store produced by `parse_segments` on `gfaDirectFile`. -/
def directSource : SequenceSource :=
  (parse_segments gfaDirectFile (preprocessedOf gfaDirectFile) defaultParameters).1

/-- Witness for C6's amended claim on `gfaDirectFile`: one P-line, no
W-line, one insertion. -/
theorem c6_insertions_count_witness :
    (parse_paths gfaDirectFile (preprocessedOf gfaDirectFile) directSource
        emptyBuilder).inserted.length =
      emptyBuilder.inserted.length + (preprocessedOf gfaDirectFile).p_lines.length +
        (preprocessedOf gfaDirectFile).w_lines.length
    ∧ (preprocessedOf gfaDirectFile).p_lines.length = 1 := by
  exact ⟨c6_insertions_count gfaDirectFile (preprocessedOf gfaDirectFile) directSource
    emptyBuilder (by decide) (by decide) (by decide), by decide⟩

/-- The metadata event recorded for the W-line at `off`: its structured
`(sample, haplotype, contig, start)` fields. -/
def walkEventAt (file : List Char) (off : Nat) : MetadataEvent :=
  .walkRecord (fieldStr file (next_field file (first_field file off 0)))
    (fieldStr file (next_field file (next_field file (first_field file off 0))))
    (fieldStr file (next_field file (next_field file (next_field file
      (first_field file off 0)))))
    (fieldStr file (next_field file (next_field file (next_field file (next_field file
      (first_field file off 0))))))

lemma forEachPathNameLoop_ref (file : List Char) :
    ∀ (offs : List Nat) (m : MetadataBuilder), (∀ nm, m.refPathOk nm = true) →
      forEachPathNameLoop file
        (fun (s : MetadataBuilder × Bool) name =>
          match s.1.add_reference_path name with
          | (m, true) => ((m, s.2), true)
          | (m, false) => ((m, true), false))
        offs (m, false) =
      ({ m with events := m.events ++
          offs.map (fun off => MetadataEvent.refPath (secondFieldStrAt file off)) }, false) := by
  intro offs
  induction offs with
  | nil =>
      intro m _
      simp only [forEachPathNameLoop, List.map_nil, List.append_nil]
  | cons off rest ih =>
      intro m hm
      have hadd : m.add_reference_path (fieldStr file (next_field file (first_field file off 0))) =
          ({ m with events := m.events ++ [MetadataEvent.refPath
            (fieldStr file (next_field file (first_field file off 0)))] }, true) := by
        unfold MetadataBuilder.add_reference_path
        rw [hm, if_pos rfl]
      simp only [forEachPathNameLoop, hadd]
      rw [ih { m with events := m.events ++ [MetadataEvent.refPath
        (fieldStr file (next_field file (first_field file off 0)))] } hm]
      simp only [secondFieldStrAt, List.map_cons, List.append_assoc, List.cons_append,
        List.nil_append]

lemma forEachWalkNameLoop_walks (file : List Char) :
    ∀ (offs : List Nat) (m : MetadataBuilder), (∀ a b c d, m.walkOk a b c d = true) →
      forEachWalkNameLoop file
        (fun (s : MetadataBuilder × Bool) sample haplotype contig start =>
          match s.1.add_walk sample haplotype contig start with
          | (m, true) => ((m, s.2), true)
          | (m, false) => ((m, true), false))
        offs (m, false) =
      ({ m with events := m.events ++ offs.map (walkEventAt file) }, false) := by
  intro offs
  induction offs with
  | nil =>
      intro m _
      simp only [forEachWalkNameLoop, List.map_nil, List.append_nil]
  | cons off rest ih =>
      intro m hm
      have hadd : m.add_walk (fieldStr file (next_field file (first_field file off 0)))
          (fieldStr file (next_field file (next_field file (first_field file off 0))))
          (fieldStr file (next_field file (next_field file (next_field file
            (first_field file off 0)))))
          (fieldStr file (next_field file (next_field file (next_field file (next_field file
            (first_field file off 0)))))) =
          ({ m with events := m.events ++
            [MetadataEvent.walkRecord (fieldStr file (next_field file (first_field file off 0)))
              (fieldStr file (next_field file (next_field file (first_field file off 0))))
              (fieldStr file (next_field file (next_field file (next_field file
                (first_field file off 0)))))
              (fieldStr file (next_field file (next_field file (next_field file (next_field file
                (first_field file off 0))))))] }, true) := by
        unfold MetadataBuilder.add_walk
        rw [hm, if_pos rfl]
      simp only [forEachWalkNameLoop, hadd]
      rw [ih { m with events := m.events ++
        [MetadataEvent.walkRecord (fieldStr file (next_field file (first_field file off 0)))
          (fieldStr file (next_field file (next_field file (first_field file off 0))))
          (fieldStr file (next_field file (next_field file (next_field file
            (first_field file off 0)))))
          (fieldStr file (next_field file (next_field file (next_field file (next_field file
            (first_field file off 0))))))] } hm]
      simp only [walkEventAt, List.map_cons, List.append_assoc, List.cons_append,
        List.nil_append]

lemma forEachPathNameLoop_parse (file : List Char) :
    ∀ (offs : List Nat) (m : MetadataBuilder), (∀ nm, m.parseOk nm = true) →
      forEachPathNameLoop file
        (fun (s : MetadataBuilder × Bool) name =>
          match s.1.parse name with
          | (m, true) => ((m, s.2), true)
          | (m, false) => ((m, true), false))
        offs (m, false) =
      ({ m with events := m.events ++
          offs.map (fun off => MetadataEvent.parsed (secondFieldStrAt file off)) }, false) := by
  intro offs
  induction offs with
  | nil =>
      intro m _
      simp only [forEachPathNameLoop, List.map_nil, List.append_nil]
  | cons off rest ih =>
      intro m hm
      have hadd : m.parse (fieldStr file (next_field file (first_field file off 0))) =
          ({ m with events := m.events ++ [MetadataEvent.parsed
            (fieldStr file (next_field file (first_field file off 0)))] }, true) := by
        unfold MetadataBuilder.parse
        rw [hm, if_pos rfl]
      simp only [forEachPathNameLoop, hadd]
      rw [ih { m with events := m.events ++ [MetadataEvent.parsed
        (fieldStr file (next_field file (first_field file off 0)))] } hm]
      simp only [secondFieldStrAt, List.map_cons, List.append_assoc, List.cons_append,
        List.nil_append]

/-- C7: with walks present, every P-line name is registered with the
metadata builder as a reference path and every W-line's structured fields
are recorded as a walk, in that order; with no walks, every P-line name is
passed through the configured regex parser; and a metadata-parsing
failure makes `gfa_to_gbwt` return the null result. -/
theorem c7_metadata_registration :
    (∀ (file : List Char) (gfa : GFAFile) (md : MetadataBuilder),
      0 < gfa.w_lines.length → gfa.ok = true →
      (∀ nm, md.refPathOk nm = true) → (∀ a b c d, md.walkOk a b c d = true) →
      parse_metadata file gfa md =
        some { md with events := (md.events ++
          gfa.p_lines.map (fun off => MetadataEvent.refPath (secondFieldStrAt file off))) ++
          gfa.w_lines.map (walkEventAt file) })
    ∧ (∀ (file : List Char) (gfa : GFAFile) (md : MetadataBuilder),
      gfa.w_lines.length = 0 → 0 < gfa.p_lines.length → gfa.ok = true →
      (∀ nm, md.parseOk nm = true) →
      parse_metadata file gfa md =
        some { md with events := md.events ++
          gfa.p_lines.map (fun off => MetadataEvent.parsed (secondFieldStrAt file off)) })
    ∧ (∀ (file : List Char) (parameters : GFAParsingParameters) (md : MetadataBuilder)
        (gfa : GFAFile),
      GFAFile.preprocess file = some gfa → check_gfa_file gfa parameters = true →
      parse_metadata file gfa md = none →
      gfa_to_gbwt file parameters md = none) := by
  refine ⟨?_, ?_, ?_⟩
  · intro file gfa md hw hok hr hwok
    unfold parse_metadata
    rw [if_pos hw]
    unfold for_each_path_name for_each_walk_name
    simp only [hok, Bool.not_true, Bool.false_eq_true, if_false]
    by_cases hp : 0 < gfa.p_lines.length
    · rw [if_pos hp]
      rw [forEachPathNameLoop_ref file gfa.p_lines md hr]
      simp only [Bool.false_eq_true, if_false]
      have hwalks := forEachWalkNameLoop_walks file gfa.w_lines
        { md with
          events := md.events ++
            gfa.p_lines.map (fun off => MetadataEvent.refPath (secondFieldStrAt file off)) } hwok
      rw [hwalks]
      simp only [Bool.false_eq_true, if_false, List.append_assoc]
    · rw [if_neg hp]
      simp only [Bool.false_eq_true, if_false]
      rw [forEachWalkNameLoop_walks file gfa.w_lines md hwok]
      simp only [Bool.false_eq_true, if_false]
      have hp0 : gfa.p_lines = [] := by
        cases hpl : gfa.p_lines with
        | nil => rfl
        | cons a l => rw [hpl] at hp; simp at hp
      rw [hp0]
      simp
  · intro file gfa md hw0 hp hok hpar
    unfold parse_metadata
    rw [if_neg (by omega)]
    rw [if_pos hp]
    unfold for_each_path_name
    simp only [hok, Bool.not_true, Bool.false_eq_true, if_false]
    rw [forEachPathNameLoop_parse file gfa.p_lines md hpar]
    simp only [Bool.false_eq_true, if_false]
  · intro file parameters md gfa hpre hchk hpm
    unfold gfa_to_gbwt
    rw [hpre]
    simp only [hchk, Bool.not_true, Bool.false_eq_true, if_false, hpm]

/-- Witness for C7 on `gfaWalksFile` (one P-line, one W-line, default
always-succeeding metadata oracle): the recorded events are the reference
path followed by the walk record. -/
theorem c7_metadata_registration_witness :
    (parse_metadata gfaWalksFile (preprocessedOf gfaWalksFile) allTrueMetadata).map
        (fun m => m.events) =
      some [MetadataEvent.refPath "GRCh38#chr1".toList,
            MetadataEvent.walkRecord "HG002".toList "1".toList "chr1".toList "0".toList] := by
  rw [c7_metadata_registration.1 gfaWalksFile (preprocessedOf gfaWalksFile) allTrueMetadata
    (by decide) (by decide) (fun _ => rfl) (fun _ _ _ _ => rfl)]
  decide
